import Mathlib

/-!
Shallow embedding of the "talking-talent" repository's service layer
(business-analyst service, talent-round service, review service, storage
accessor, export/import) together with proofs about the claims on the
hierarchy logic, the round state machine, the completion aggregation,
review uniqueness, storage behaviour and the export/import round trip.

Conventions used throughout the embedding:
* JavaScript `Date` values are modelled as `Int` timestamps; the services
  receive the current time as an explicit `now` argument.
* `generateId()` (a random 9-character id) is modelled as an explicit
  `freshId` argument; theorems that need id freshness state it as a
  hypothesis.
* TypeScript `string | undefined` fields are `Option String`; JavaScript
  truthiness of such a field (`if (x)`) is `jsTruthy`, which is false for
  `none` and for the empty string.
* A thrown `Error` is an `Except.error` carrying the message string.
-/

namespace TalkingTalent

/-- Levels of a business analyst, from `BALevel` in `types/index.ts`. -/
inductive BALevel where
  | principal
  | lead
  | senior
  | intermediate
  | consultant
deriving DecidableEq, Repr, Inhabited

/-- Lifecycle states of a talent round, from `RoundStatus` in `types/index.ts`. -/
inductive RoundStatus where
  | draft
  | active
  | completed
deriving DecidableEq, Repr, Inhabited

/-- Promotion readiness values, from `PromotionReadiness` in `types/index.ts`. -/
inductive PromotionReadiness where
  | ready
  | nearReady
  | notReady
deriving DecidableEq, Repr, Inhabited

/-- A stored business-analyst record (`BusinessAnalyst` in `types/index.ts`). -/
structure BusinessAnalyst where
  id : String
  firstName : String
  lastName : String
  email : Option String
  level : BALevel
  lineManagerId : Option String
  department : Option String
  startDate : Option Int
  lastPromotionDate : Option Int
  isActive : Bool
  createdAt : Int
  updatedAt : Int
deriving DecidableEq, Repr, Inhabited

/-- Payload of `BusinessAnalystService.create` (`CreateBARequest`). -/
structure CreateBARequest where
  firstName : String
  lastName : String
  email : Option String
  level : BALevel
  lineManagerId : Option String
  department : Option String
  startDate : Option Int
deriving DecidableEq, Repr

/-- Payload of `BusinessAnalystService.update` (`Partial<CreateBARequest>`).
For each field, `none` means the key is absent from the object so the
object spread keeps the existing value; for the fields that are optional
in `CreateBARequest` a present key may itself carry `undefined`
(`some none`), which the spread writes over the stored value. -/
structure UpdateBARequest where
  firstName : Option String
  lastName : Option String
  email : Option (Option String)
  level : Option BALevel
  lineManagerId : Option (Option String)
  department : Option (Option String)
  startDate : Option (Option Int)
deriving DecidableEq, Repr

/-- JavaScript truthiness of a `string | undefined` value: `undefined` and
the empty string are falsy. -/
def jsTruthy : Option String → Bool
  | none => false
  | some s => s ≠ ""

/-- Model of JavaScript `String.prototype.trim` (and of `String.trim` as
used by the services): strip leading and trailing whitespace. Written by
structural recursion over the character list so that it evaluates inside
the kernel. -/
def jsTrim (s : String) : String :=
  String.mk (((s.data.dropWhile Char.isWhitespace).reverse.dropWhile
    Char.isWhitespace).reverse)

/-- The `lineManagerId` of a record read through JavaScript truthiness:
`none` when the field is `undefined` or the empty string. -/
def mgrRef (ba : BusinessAnalyst) : Option String :=
  match ba.lineManagerId with
  | none => none
  | some s => if s = "" then none else some s

/-- Model of the email regular expression of `utils/validation.ts`
(`/^[^\s@]+@[^\s@]+\.[^\s@]+$/`): the string splits at a single `@` into a
nonempty local part and a nonempty rest that contains an interior dot, and
no character is whitespace or a second `@`. -/
def isValidEmail (e : String) : Bool :=
  let cs := e.toList
  match cs.findIdx? (· = '@') with
  | none => false
  | some i =>
    let before := cs.take i
    let after := cs.drop (i + 1)
    before ≠ [] ∧ after ≠ [] ∧
    (cs.all fun c => ¬ c.isWhitespace) ∧
    after.all (· ≠ '@') ∧
    (List.range after.length).any fun j =>
      0 < j ∧ j + 1 < after.length ∧ after.get? j = some '.'

/-- The validation errors of `validateBAData` in `utils/validation.ts`.
The level check (`Object.values(BALevel).includes(data.level)`) can never
fail for a well-typed request, so it contributes no error here. -/
def validateBAData (d : CreateBARequest) : List String :=
  (if jsTrim d.firstName = "" then ["First name is required"] else []) ++
  (if jsTrim d.lastName = "" then ["Last name is required"] else []) ++
  (match d.email with
   | some e => if e ≠ "" ∧ ¬ isValidEmail e then ["Valid email address is required"] else []
   | none => [])

/-- Lookup of `BusinessAnalystServiceImpl.getById`: the first stored record
with the given id. -/
def getById (l : List BusinessAnalyst) (id : String) : Option BusinessAnalyst :=
  l.find? fun ba => ba.id = id

/-- One iteration step of the `wouldCreateCircularReference` walk plus its
exit conditions. `some true` and `some false` are the two `return`s; `none`
means the fuel ran out before the loop finished (the sufficiency theorem
shows this never happens for the fuel the service uses). The walk follows
the raw `lineManagerId` of the current record but the `while` condition
applies JavaScript truthiness to it, so an empty-string link ends the walk. -/
def wccrLoop (l : List BusinessAnalyst) (baId : String) :
    Nat → List String → Option String → Option Bool
  | 0, _, _ => none
  | fuel + 1, visited, curr =>
    if h : jsTruthy curr then
      match curr, h with
      | some c, _ =>
        if c ∈ visited then some false
        else if c = baId then some true
        else wccrLoop l baId fuel (c :: visited) ((getById l c).bind (·.lineManagerId))
    else some false

/-- Model of `BusinessAnalystServiceImpl.wouldCreateCircularReference`.
The loop is run with fuel `l.length + 2`, which the termination theorem
below proves is always enough, so the `getD false` default is never taken. -/
def wouldCreateCircularReference (l : List BusinessAnalyst)
    (baId : String) (newManagerId : Option String) : Bool :=
  if ¬ jsTruthy newManagerId ∨ newManagerId = some baId then false
  else (wccrLoop l baId (l.length + 2) [] newManagerId).getD false

/-- Model of `BusinessAnalystServiceImpl.create`. `freshId` stands for the
`generateId()` call and `now` for `new Date()`. -/
def createBA (l : List BusinessAnalyst) (d : CreateBARequest)
    (freshId : String) (now : Int) :
    Except String (List BusinessAnalyst × BusinessAnalyst) :=
  let errs := validateBAData d
  if errs ≠ [] then
    .error ("Validation failed: " ++ String.intercalate ", " errs)
  else if jsTruthy d.lineManagerId ∧ (getById l (d.lineManagerId.getD "")).isNone then
    .error "Line manager not found"
  else
  let newBA : BusinessAnalyst :=
    { id := freshId
      firstName := jsTrim d.firstName
      lastName := jsTrim d.lastName
      email := d.email.map jsTrim
      level := d.level
      lineManagerId := d.lineManagerId
      department := d.department.map jsTrim
      startDate := d.startDate
      lastPromotionDate := none
      isActive := true
      createdAt := now
      updatedAt := now }
  .ok (l ++ [newBA], newBA)

/-- Result of spreading an update payload over a stored record
(`{ ...existingBA, ...data }` followed by the `updatedAt` refresh). -/
def applyBASpread (ba : BusinessAnalyst) (d : UpdateBARequest) (now : Int) :
    BusinessAnalyst :=
  { ba with
    firstName := d.firstName.getD ba.firstName
    lastName := d.lastName.getD ba.lastName
    email := d.email.getD ba.email
    level := d.level.getD ba.level
    lineManagerId := d.lineManagerId.getD ba.lineManagerId
    department := d.department.getD ba.department
    startDate := d.startDate.getD ba.startDate
    updatedAt := now }

/-- The `CreateBARequest` view of the merged record that
`BusinessAnalystServiceImpl.update` feeds to `validateBAData`. -/
def mergedBARequest (ba : BusinessAnalyst) (d : UpdateBARequest) : CreateBARequest :=
  { firstName := d.firstName.getD ba.firstName
    lastName := d.lastName.getD ba.lastName
    email := d.email.getD ba.email
    level := d.level.getD ba.level
    lineManagerId := d.lineManagerId.getD ba.lineManagerId
    department := d.department.getD ba.department
    startDate := d.startDate.getD ba.startDate }

/-- The payload's `lineManagerId` as `update` reads it (`data.lineManagerId`):
`none` when the key is absent, otherwise the written value. -/
def payloadMgr (d : UpdateBARequest) : Option String :=
  d.lineManagerId.getD none

/-- Model of `BusinessAnalystServiceImpl.update`. Returns `ok none` when no
record has the id (the TypeScript `return null`), `error` for each `throw`,
and otherwise the new store together with the updated record. -/
def updateBA (l : List BusinessAnalyst) (id : String) (d : UpdateBARequest)
    (now : Int) :
    Except String (Option (List BusinessAnalyst × BusinessAnalyst)) :=
  match l.findIdx? (fun ba => ba.id = id) with
  | none => .ok none
  | some i =>
    let existing := l.get! i
    let errs := validateBAData (mergedBARequest existing d)
    if errs ≠ [] then
      .error ("Validation failed: " ++ String.intercalate ", " errs)
    else if jsTruthy (payloadMgr d) ∧ payloadMgr d ≠ some id ∧
        (getById l ((payloadMgr d).getD "")).isNone then
      .error "Line manager not found"
    else if wouldCreateCircularReference l id (payloadMgr d) then
      .error "Cannot create circular reporting relationship"
    else
      let updated := applyBASpread existing d now
      .ok (some (l.set i updated, updated))

/-- Model of `BusinessAnalystServiceImpl.deactivate`. -/
def deactivateBA (l : List BusinessAnalyst) (id : String) (now : Int) :
    Bool × List BusinessAnalyst :=
  match l.findIdx? (fun ba => ba.id = id) with
  | none => (false, l)
  | some i =>
    (true, l.set i { l.get! i with isActive := false, updatedAt := now })

/-- Node of the organisational chart (`OrgChartNode` in `types/index.ts`). -/
structure OrgChartNode where
  ba : BusinessAnalyst
  children : List OrgChartNode
  depth : Nat
deriving Repr

/-- Model of `BusinessAnalystServiceImpl.buildOrgChartNode`. The TypeScript
recursion is structural on the child relation; the `fuel` argument makes it
a total Lean function, and the org-chart theorems show that the fuel used by
`getOrgChart` is never exhausted on well-founded data. A child is any record
of `allBAs` whose raw `lineManagerId` equals the parent's id. -/
def buildOrgChartNode (allBAs : List BusinessAnalyst) :
    Nat → BusinessAnalyst → Nat → OrgChartNode
  | 0, ba, depth => { ba := ba, children := [], depth := depth }
  | fuel + 1, ba, depth =>
    { ba := ba
      children :=
        (allBAs.filter fun child => child.lineManagerId = some ba.id).map
          fun child => buildOrgChartNode allBAs fuel child (depth + 1)
      depth := depth }

/-- Model of `BusinessAnalystServiceImpl.getOrgChart`: active records whose
`lineManagerId` is falsy become roots, each expanded over the active set. -/
def getOrgChart (l : List BusinessAnalyst) : List OrgChartNode :=
  let activeBAs := l.filter (·.isActive)
  let rootBAs := activeBAs.filter fun ba => ¬ jsTruthy ba.lineManagerId
  rootBAs.map fun ba => buildOrgChartNode activeBAs activeBAs.length ba 0

/-- One step along the manager chain of the stored data: from an id to the
truthy `lineManagerId` of the first record carrying that id, `none` when the
id is unknown or the record has no (truthy) manager link. -/
def mgrStep (l : List BusinessAnalyst) (x : String) : Option String :=
  (getById l x).bind mgrRef

/-- Iterated manager steps: `mgrIter l n x` is the id reached from `x` after
exactly `n` steps, `none` when the chain ends earlier. -/
def mgrIter (l : List BusinessAnalyst) : Nat → String → Option String
  | 0, x => some x
  | n + 1, x => (mgrStep l x).bind (mgrIter l n)

/-- The id `target` lies on the transitive manager chain starting at
`start` (in zero or more steps). -/
def InChain (l : List BusinessAnalyst) (start target : String) : Prop :=
  ∃ n, mgrIter l n start = some target

/-- No stored business analyst is its own manager through a chain of length
at least two: whenever a record's manager link points to a different id,
the chain from that id never returns to the record. (A direct
self-reference `mgrRef ba = some ba.id` is not excluded here; the service
accepts it, see the C1 counterexample.) -/
def NoProperCycle (l : List BusinessAnalyst) : Prop :=
  ∀ ba ∈ l, ∀ m, mgrRef ba = some m → m ≠ ba.id → ¬ InChain l m ba.id

/-- The list of stored ids. -/
def baIds (l : List BusinessAnalyst) : List String := l.map (·.id)

/-- Well-formed id set: ids are pairwise distinct and never empty. -/
def GoodIds (l : List BusinessAnalyst) : Prop :=
  (baIds l).Nodup ∧ ∀ ba ∈ l, ba.id ≠ ""

/-- One mutating call of the staff service (create or update), with the
nondeterministic inputs (`generateId()`, `new Date()`) made explicit. -/
inductive BAOp where
  | create (d : CreateBARequest) (freshId : String) (now : Int)
  | update (id : String) (d : UpdateBARequest) (now : Int)

/-- The store after one service call; a thrown error or a `null` return
leaves the store unchanged, as in the implementation both happen before
any mutation. -/
def applyBAOp (l : List BusinessAnalyst) : BAOp → List BusinessAnalyst
  | .create d freshId now =>
    match createBA l d freshId now with
    | .ok (l', _) => l'
    | .error _ => l
  | .update id d now =>
    match updateBA l id d now with
    | .ok (some (l', _)) => l'
    | .ok none => l
    | .error _ => l

/-- The store after a sequence of service calls. -/
def applyBAOps (l : List BusinessAnalyst) (ops : List BAOp) : List BusinessAnalyst :=
  ops.foldl applyBAOp l

/-- Freshness of the modelled `generateId()` results along a run: each
create's id is nonempty, differs from every id stored at that point and is
not the target of any dangling manager link. -/
def FreshOps (l : List BusinessAnalyst) : List BAOp → Prop
  | [] => True
  | op :: ops =>
    (match op with
     | .create _ freshId _ =>
       freshId ≠ "" ∧ freshId ∉ baIds l ∧ ∀ ba ∈ l, mgrRef ba ≠ some freshId
     | .update _ _ _ => True) ∧ FreshOps (applyBAOp l op) ops

/-! ## Storage accessor and JSON model

`JSON.parse`/`JSON.stringify` are browser built-ins, not code of this
repository; they are modelled as the identity embedding between a stored
document and the `Json` tree it denotes. A storage read is one of four
outcomes, matching the branches of `loadFromStorage`. -/

/-- Abstract JSON values. -/
inductive Json where
  | null
  | bool (b : Bool)
  | num (n : Int)
  | str (s : String)
  | arr (xs : List Json)
  | obj (fields : List (String × Json))

/-- Outcome of reading one key of the underlying key-value store:
the read itself threw, the key is absent (or holds the empty string, which
`if (!data)` treats the same way), the stored text is not valid JSON, or it
parses to the given JSON value. -/
inductive StorageCell where
  | readError
  | missing
  | parseError
  | parsed (j : Json)

/-- Model of `loadFromStorage` in `utils/storage.ts`. -/
def loadFromStorage : StorageCell → List Json
  | .readError => []
  | .missing => []
  | .parseError => []
  | .parsed (.arr xs) => xs
  | .parsed _ => []

/-- Model of `saveToStorage` in `utils/storage.ts`: the write either fails
(modelled by the `writeFails` flag for the `localStorage.setItem` throw) or
replaces the cell with the serialised array. -/
def saveToStorage (data : List Json) (writeFails : Bool) : Except String StorageCell :=
  if writeFails then .error "Storage quota exceeded or localStorage unavailable"
  else .ok (.parsed (.arr data))

/-- The three fixed keys of the store, as one state. -/
structure StorageState where
  businessAnalysts : StorageCell
  talentRounds : StorageCell
  reviews : StorageCell

/-- Result record of `DataExportServiceImpl.exportAll`. -/
structure ExportResult where
  success : Bool
  data : Option Json
  filename : String

/-- Model of `DataExportServiceImpl.exportAll`. Loading never throws and
serialisation of loaded data always succeeds, so the `catch` branch is
unreachable and the result is always successful. -/
def exportAll (st : StorageState) (exportedAt timestamp : String) : ExportResult :=
  { success := true
    data := some (.obj
      [("businessAnalysts", .arr (loadFromStorage st.businessAnalysts)),
       ("talentRounds", .arr (loadFromStorage st.talentRounds)),
       ("reviews", .arr (loadFromStorage st.reviews)),
       ("exportedAt", .str exportedAt),
       ("version", .str "1.0")])
    filename := "talking-talent-export_" ++ timestamp ++ ".json" }

/-- Field lookup on a parsed JSON value (`data[key]`): only objects have
fields. -/
def getField : Json → String → Option Json
  | .obj fields, k => (fields.find? fun p => p.1 = k).map (·.2)
  | _, _ => none

/-- The `data[key] && Array.isArray(data[key])` test of the import code:
the field is present and is an array (arrays are always truthy). -/
def fieldArray (j : Json) (k : String) : Option (List Json) :=
  match getField j k with
  | some (.arr xs) => some xs
  | _ => none

/-- Model of `DataExportServiceImpl.validateImportData`: the parsed value is
an object (the `!data || typeof data !== 'object'` guard; arrays also pass
it but then have no fields) and at least one of the three keys holds an
array. -/
def validateImportData (j : Json) : Bool :=
  (match j with | .arr _ => true | .obj _ => true | _ => false) &&
  ((fieldArray j "businessAnalysts").isSome ||
   (fieldArray j "talentRounds").isSome ||
   (fieldArray j "reviews").isSome)

/-- Result record of `DataExportServiceImpl.importData`. -/
structure ImportResult where
  success : Bool
  imported : Nat
  errors : List String
  state : StorageState

/-- Model of `DataExportServiceImpl.importData`, taking the already parsed
document (the invalid-JSON catch branch corresponds to a string that does
not parse and is not reachable from an exported document). The three write
failures are modelled by one flag each. -/
def importData (j : Json) (st : StorageState) (wfBA wfTR wfRV : Bool) : ImportResult :=
  if ¬ validateImportData j then
    { success := false, imported := 0, errors := ["Invalid import data format"], state := st }
  else
    let step := fun (field : Option (List Json)) (wf : Bool) (cell : StorageCell)
        (failMsg : String) =>
      match field with
      | some xs =>
        match saveToStorage xs wf with
        | .ok cell' => (cell', xs.length, (none : Option String))
        | .error _ => (cell, 0, some failMsg)
      | none => (cell, 0, none)
    let (cellBA, nBA, eBA) := step (fieldArray j "businessAnalysts") wfBA
      st.businessAnalysts "Failed to import business analysts"
    let (cellTR, nTR, eTR) := step (fieldArray j "talentRounds") wfTR
      st.talentRounds "Failed to import talent rounds"
    let (cellRV, nRV, eRV) := step (fieldArray j "reviews") wfRV
      st.reviews "Failed to import reviews"
    let errors := [eBA, eTR, eRV].filterMap id
    { success := errors = []
      imported := nBA + nTR + nRV
      errors := errors
      state := { businessAnalysts := cellBA, talentRounds := cellTR, reviews := cellRV } }

/-! ## Talent-round service -/

/-- A stored talent round (`TalentRound` in `types/index.ts`). -/
structure TalentRound where
  id : String
  name : String
  quarter : String
  year : Int
  deadline : Int
  status : RoundStatus
  createdBy : String
  createdAt : Int
  completedAt : Option Int
  description : Option String
deriving DecidableEq, Repr, Inhabited

/-- Payload of `TalentRoundService.create` (`CreateRoundRequest`). -/
structure CreateRoundRequest where
  name : String
  quarter : String
  year : Int
  deadline : Int
  description : Option String
deriving DecidableEq, Repr

/-- Payload of `TalentRoundService.update` (`Partial<CreateRoundRequest>`);
`none` fields are absent keys. -/
structure UpdateRoundRequest where
  name : Option String
  quarter : Option String
  year : Option Int
  deadline : Option Int
  description : Option (Option String)
deriving DecidableEq, Repr

/-- Model of `validateRoundData` in `utils/validation.ts`. Dates are day
numbers, so the midnight normalisation of both sides is the identity; the
`!data.deadline` guard is never taken because a `Date` object is always
truthy. `today` models `new Date()` at the call. -/
def validateRoundData (d : CreateRoundRequest) (today : Int) : List String :=
  (if jsTrim d.name = "" then ["Round name is required"] else []) ++
  (if jsTrim d.quarter = "" then ["Quarter is required"] else []) ++
  (if d.year = 0 ∨ d.year < 2020 ∨ d.year > 2050 then ["Valid year is required"] else []) ++
  (if d.deadline < today then ["Deadline cannot be in the past"] else [])

/-- Model of `TalentRoundServiceImpl.create`. Note that the duplicate check
compares the stored quarter with the raw request quarter, while the stored
round keeps the trimmed quarter. -/
def createRound (rounds : List TalentRound) (d : CreateRoundRequest)
    (freshId : String) (now today : Int) :
    Except String (List TalentRound × TalentRound) :=
  let errs := validateRoundData d today
  if errs ≠ [] then
    .error ("Validation failed: " ++ String.intercalate ", " errs)
  else if (rounds.find? fun r => r.quarter = d.quarter ∧ r.year = d.year).isSome then
    .error "A round already exists for this quarter and year"
  else
  let newRound : TalentRound :=
    { id := freshId
      name := jsTrim d.name
      quarter := jsTrim d.quarter
      year := d.year
      deadline := d.deadline
      status := .draft
      createdBy := "system"
      createdAt := now
      completedAt := none
      description := d.description.map jsTrim }
  .ok (rounds ++ [newRound], newRound)

/-- Model of `TalentRoundServiceImpl.update`. The payload has no status
field, so the spread never changes `status` or `completedAt`; the stored
fields take the raw (untrimmed) payload values. -/
def updateRound (rounds : List TalentRound) (id : String)
    (d : UpdateRoundRequest) (today : Int) :
    Except String (Option (List TalentRound × TalentRound)) :=
  match rounds.findIdx? (fun r => r.id = id) with
  | none => .ok none
  | some i =>
    let existing := rounds.get! i
    if existing.status = .completed then
      .error "Cannot edit completed rounds"
    else
    let merged : CreateRoundRequest :=
      { name := d.name.getD existing.name
        quarter := d.quarter.getD existing.quarter
        year := d.year.getD existing.year
        deadline := d.deadline.getD existing.deadline
        description := d.description.getD existing.description }
    let errs := validateRoundData merged today
    if errs ≠ [] then
      .error ("Validation failed: " ++ String.intercalate ", " errs)
    else
    let updated : TalentRound :=
      { existing with
        name := d.name.getD existing.name
        quarter := d.quarter.getD existing.quarter
        year := d.year.getD existing.year
        deadline := d.deadline.getD existing.deadline
        description := d.description.getD existing.description }
    .ok (some (rounds.set i updated, updated))

/-- Model of `TalentRoundServiceImpl.activate`. -/
def activateRound (rounds : List TalentRound) (id : String) :
    Except String (Option (List TalentRound × TalentRound)) :=
  match rounds.findIdx? (fun r => r.id = id) with
  | none => .ok none
  | some i =>
    let round := rounds.get! i
    if round.status ≠ .draft then
      .error "Only draft rounds can be activated"
    else
      let updated := { round with status := RoundStatus.active }
      .ok (some (rounds.set i updated, updated))

/-! ## Review records -/

/-- A has-issues flag with optional details, as in the review shapes. -/
structure IssueFlag where
  hasIssues : Bool
  details : Option String
deriving DecidableEq, Repr, Inhabited

/-- A has-opportunities flag with optional details. -/
structure OpportunityFlag where
  hasOpportunities : Bool
  details : Option String
deriving DecidableEq, Repr, Inhabited

/-- A stored review (`Review` in `types/index.ts`). -/
structure Review where
  id : String
  roundId : String
  businessAnalystId : String
  reviewerId : Option String
  wellbeingConcerns : IssueFlag
  performanceConcerns : IssueFlag
  developmentOpportunities : OpportunityFlag
  promotionReadiness : PromotionReadiness
  actions : List String
  generalNotes : Option String
  isComplete : Bool
  completedAt : Option Int
  createdAt : Int
  updatedAt : Int
deriving DecidableEq, Repr, Inhabited

/-- Payload of `ReviewService.create` (`CreateReviewRequest`). -/
structure CreateReviewRequest where
  roundId : String
  businessAnalystId : String
  reviewerId : Option String
  wellbeingConcerns : IssueFlag
  performanceConcerns : IssueFlag
  developmentOpportunities : OpportunityFlag
  promotionReadiness : PromotionReadiness
  actions : Option (List String)
  generalNotes : Option String
deriving DecidableEq, Repr

/-- Payload of `ReviewService.update` (`Partial<CreateReviewRequest>`);
`none` fields are absent keys (explicitly `undefined` keys are not
modelled). -/
structure UpdateReviewRequest where
  roundId : Option String
  businessAnalystId : Option String
  reviewerId : Option String
  wellbeingConcerns : Option IssueFlag
  performanceConcerns : Option IssueFlag
  developmentOpportunities : Option OpportunityFlag
  promotionReadiness : Option PromotionReadiness
  actions : Option (List String)
  generalNotes : Option String
deriving DecidableEq, Repr

/-- The `x || y` merge of the update path for string fields: a present,
nonempty payload string wins, anything falsy keeps the stored value. -/
def jsOrStr (x : Option String) (y : String) : String :=
  match x with
  | some s => if s = "" then y else s
  | none => y

/-- Details requirement shared by the validation and the completeness
check: the flag is raised but the details are absent or blank. -/
def detailsMissing (flag : Bool) (details : Option String) : Bool :=
  flag && (match details with | none => true | some s => decide (jsTrim s = ""))

/-- Model of `validateReviewData` in `utils/validation.ts`. -/
def validateReviewData (d : CreateReviewRequest) : List String :=
  (if d.roundId = "" then ["Round ID is required"] else []) ++
  (if d.businessAnalystId = "" then ["Business Analyst ID is required"] else []) ++
  (if detailsMissing d.wellbeingConcerns.hasIssues d.wellbeingConcerns.details then
    ["Wellbeing concerns details are required when issues are indicated"] else []) ++
  (if detailsMissing d.performanceConcerns.hasIssues d.performanceConcerns.details then
    ["Performance concerns details are required when issues are indicated"] else []) ++
  (if detailsMissing d.developmentOpportunities.hasOpportunities
      d.developmentOpportunities.details then
    ["Development opportunities details are required when opportunities are indicated"]
  else [])

/-- Model of `ReviewServiceImpl.isReviewComplete`; `promotionReadiness` is
always present on a typed request, so the `!data.promotionReadiness` guard
never fires. -/
def isReviewComplete (d : CreateReviewRequest) : Bool :=
  ¬ detailsMissing d.wellbeingConcerns.hasIssues d.wellbeingConcerns.details ∧
  ¬ detailsMissing d.performanceConcerns.hasIssues d.performanceConcerns.details ∧
  ¬ detailsMissing d.developmentOpportunities.hasOpportunities
      d.developmentOpportunities.details

/-- Model of `ReviewServiceImpl.getByBAAndRound`. -/
def getByBAAndRound (reviews : List Review) (baId roundId : String) : Option Review :=
  reviews.find? fun r => r.businessAnalystId = baId ∧ r.roundId = roundId

/-- Model of `ReviewServiceImpl.create`. -/
def createReview (reviews : List Review) (d : CreateReviewRequest)
    (freshId : String) (now : Int) : Except String (List Review × Review) :=
  let errs := validateReviewData d
  if errs ≠ [] then
    .error ("Validation failed: " ++ String.intercalate ", " errs)
  else if (getByBAAndRound reviews d.businessAnalystId d.roundId).isSome then
    .error "Review already exists for this BA and round"
  else
  let complete := isReviewComplete d
  let newReview : Review :=
    { id := freshId
      roundId := d.roundId
      businessAnalystId := d.businessAnalystId
      reviewerId := d.reviewerId
      wellbeingConcerns :=
        { hasIssues := d.wellbeingConcerns.hasIssues
          details := d.wellbeingConcerns.details.map jsTrim }
      performanceConcerns :=
        { hasIssues := d.performanceConcerns.hasIssues
          details := d.performanceConcerns.details.map jsTrim }
      developmentOpportunities :=
        { hasOpportunities := d.developmentOpportunities.hasOpportunities
          details := d.developmentOpportunities.details.map jsTrim }
      promotionReadiness := d.promotionReadiness
      actions := (d.actions.getD []).filter (fun a => jsTrim a ≠ "")
      generalNotes := d.generalNotes.map jsTrim
      isComplete := complete
      completedAt := if complete then some now else none
      createdAt := now
      updatedAt := now }
  .ok (reviews ++ [newReview], newReview)

/-- The merged request (`updatedData`) that `ReviewServiceImpl.update`
validates and checks completeness on, built with `||` merges. -/
def mergedReviewRequest (r : Review) (d : UpdateReviewRequest) : CreateReviewRequest :=
  { roundId := jsOrStr d.roundId r.roundId
    businessAnalystId := jsOrStr d.businessAnalystId r.businessAnalystId
    reviewerId := match d.reviewerId with
      | some s => if s = "" then r.reviewerId else some s
      | none => r.reviewerId
    wellbeingConcerns := d.wellbeingConcerns.getD r.wellbeingConcerns
    performanceConcerns := d.performanceConcerns.getD r.performanceConcerns
    developmentOpportunities := d.developmentOpportunities.getD r.developmentOpportunities
    promotionReadiness := d.promotionReadiness.getD r.promotionReadiness
    actions := some (d.actions.getD r.actions)
    generalNotes := match d.generalNotes with
      | some s => if s = "" then r.generalNotes else some s
      | none => r.generalNotes }

/-- Model of `ReviewServiceImpl.update`. The stored record takes the raw
spread `{ ...existingReview, ...data }` of the payload, while validation
and the completeness check use the `||`-merged request. -/
def updateReview (reviews : List Review) (id : String) (d : UpdateReviewRequest)
    (now : Int) : Except String (Option (List Review × Review)) :=
  match reviews.findIdx? (fun r => r.id = id) with
  | none => .ok none
  | some i =>
    let existing := reviews.get! i
    let merged := mergedReviewRequest existing d
    let errs := validateReviewData merged
    if errs ≠ [] then
      .error ("Validation failed: " ++ String.intercalate ", " errs)
    else
    let complete := isReviewComplete merged
    let updated : Review :=
      { existing with
        roundId := d.roundId.getD existing.roundId
        businessAnalystId := d.businessAnalystId.getD existing.businessAnalystId
        reviewerId := match d.reviewerId with
          | some s => some s
          | none => existing.reviewerId
        wellbeingConcerns := d.wellbeingConcerns.getD existing.wellbeingConcerns
        performanceConcerns := d.performanceConcerns.getD existing.performanceConcerns
        developmentOpportunities :=
          d.developmentOpportunities.getD existing.developmentOpportunities
        promotionReadiness := d.promotionReadiness.getD existing.promotionReadiness
        actions := d.actions.getD existing.actions
        generalNotes := match d.generalNotes with
          | some s => some s
          | none => existing.generalNotes
        isComplete := complete
        completedAt :=
          if complete ∧ ¬ existing.isComplete then some now else existing.completedAt
        updatedAt := now }
    .ok (some (reviews.set i updated, updated))

/-- Summary record of `TalentRoundService.getRoundSummary` (`RoundSummary`).
`pendingReviews` is an integer because the JavaScript subtraction can go
negative; `reviewsByLevel` maps each level to its (total, completed) pair. -/
structure RoundSummary where
  roundId : String
  totalBAs : Nat
  completedReviews : Nat
  pendingReviews : Int
  completionPercentage : Nat
  reviewsByLevel : BALevel → Nat × Nat

/-- JavaScript `Math.round` on the nonnegative rational `100 * c / t`
(`t > 0`): halves round up. -/
def jsRoundPct (c t : Nat) : Nat := (200 * c + t) / (2 * t)

/-- Model of `TalentRoundServiceImpl.getRoundSummary`. The active staff
list models `businessAnalystService.getAll()` and `reviews` the parsed
content of the reviews key. -/
def getRoundSummary (rounds : List TalentRound) (bas : List BusinessAnalyst)
    (reviews : List Review) (id : String) : Except String RoundSummary :=
  match rounds.find? (fun r => r.id = id) with
  | none => .error "Round not found"
  | some _ =>
    let allBAs := bas.filter (·.isActive)
    let roundReviews := reviews.filter fun r => r.roundId = id
    let totalBAs := allBAs.length
    let completedReviews := (roundReviews.filter (·.isComplete)).length
    .ok
      { roundId := id
        totalBAs := totalBAs
        completedReviews := completedReviews
        pendingReviews := (totalBAs : Int) - (completedReviews : Int)
        completionPercentage :=
          if totalBAs > 0 then jsRoundPct completedReviews totalBAs else 0
        reviewsByLevel := fun lvl =>
          let lvlBAs := allBAs.filter fun ba => ba.level = lvl
          (lvlBAs.length,
           (lvlBAs.filter fun ba =>
             match roundReviews.find? (fun r => r.businessAnalystId = ba.id) with
             | some r => r.isComplete
             | none => false).length) }

/-- Model of `TalentRoundServiceImpl.complete`. -/
def completeRound (rounds : List TalentRound) (bas : List BusinessAnalyst)
    (reviews : List Review) (id : String) (now : Int) :
    Except String (Option (List TalentRound × TalentRound)) :=
  match rounds.findIdx? (fun r => r.id = id) with
  | none => .ok none
  | some i =>
    let round := rounds.get! i
    if round.status ≠ .active then
      .error "Only active rounds can be completed"
    else
      match getRoundSummary rounds bas reviews id with
      | .error e => .error e
      | .ok summary =>
        if summary.completionPercentage < 100 then
          .error "Cannot complete round with incomplete reviews"
        else
          let updated :=
            { round with status := RoundStatus.completed, completedAt := some now }
          .ok (some (rounds.set i updated, updated))

/-- One mutating call of the round service. The staff store and review
store that `complete` consults are explicit arguments of that operation. -/
inductive RoundOp where
  | create (d : CreateRoundRequest) (freshId : String) (now today : Int)
  | update (id : String) (d : UpdateRoundRequest) (today : Int)
  | activate (id : String)
  | complete (id : String) (bas : List BusinessAnalyst) (reviews : List Review) (now : Int)

/-- The round store after one service call; errors and `null` returns leave
it unchanged. -/
def applyRoundOp (rounds : List TalentRound) : RoundOp → List TalentRound
  | .create d freshId now today =>
    match createRound rounds d freshId now today with
    | .ok (rounds', _) => rounds'
    | .error _ => rounds
  | .update id d today =>
    match updateRound rounds id d today with
    | .ok (some (rounds', _)) => rounds'
    | _ => rounds
  | .activate id =>
    match activateRound rounds id with
    | .ok (some (rounds', _)) => rounds'
    | _ => rounds
  | .complete id bas reviews now =>
    match completeRound rounds bas reviews id now with
    | .ok (some (rounds', _)) => rounds'
    | _ => rounds

/-- The round store after a sequence of service calls. -/
def applyRoundOps (rounds : List TalentRound) (ops : List RoundOp) : List TalentRound :=
  ops.foldl applyRoundOp rounds

/-- Position of a status in the Draft → Active → Completed order. -/
def statusRank : RoundStatus → Nat
  | .draft => 0
  | .active => 1
  | .completed => 2

/-- The first stored round with the given id, as `TalentRoundServiceImpl.getById`. -/
def getRoundById (rounds : List TalentRound) (id : String) : Option TalentRound :=
  rounds.find? fun r => r.id = id

/-- No two stored rounds share a `(quarter, year)` pair. -/
def UniqueQuarterYear (rounds : List TalentRound) : Prop :=
  rounds.Pairwise fun r s => ¬ (r.quarter = s.quarter ∧ r.year = s.year)

/-- At most one review per `(businessAnalystId, roundId)` pair. -/
def UniqueReviewPairs (reviews : List Review) : Prop :=
  reviews.Pairwise fun r s =>
    ¬ (r.businessAnalystId = s.businessAnalystId ∧ r.roundId = s.roundId)

/-! ## Derived views of the org chart -/

mutual

/-- All business analysts of one org-chart tree, in preorder. -/
def flattenTree : OrgChartNode → List BusinessAnalyst
  | { ba := ba, children := children, depth := _ } => ba :: flattenForest children

/-- All business analysts of a forest, in preorder. -/
def flattenForest : List OrgChartNode → List BusinessAnalyst
  | [] => []
  | n :: ns => flattenTree n ++ flattenForest ns

end

/-- Membership of a node anywhere in a forest: a root, or a child of a
member. -/
inductive InForest : OrgChartNode → List OrgChartNode → Prop where
  | root {n : OrgChartNode} {ns : List OrgChartNode} : n ∈ ns → InForest n ns
  | child {n p : OrgChartNode} {ns : List OrgChartNode} :
      InForest p ns → n ∈ p.children → InForest n ns

/-- The parent record of an analyst inside a fixed record list: the first
record whose id is the analyst's truthy manager link. -/
def parentIn (A : List BusinessAnalyst) (a : BusinessAnalyst) :
    Option BusinessAnalyst :=
  match mgrRef a with
  | none => none
  | some m => A.find? fun p => p.id = m

/-- The `k`-th ancestor of an analyst inside a fixed record list. -/
def ancIn (A : List BusinessAnalyst) : Nat → BusinessAnalyst → Option BusinessAnalyst
  | 0, a => some a
  | k + 1, a => (parentIn A a).bind (ancIn A k)

/-- A witness that the manager links of the record list are well founded: a
rank function on ids that vanishes on records without a truthy manager link
and decreases along the link, the parent being found in the list. -/
def RankedBy (A : List BusinessAnalyst) (rk : String → Nat) : Prop :=
  ∀ a ∈ A, (mgrRef a = none → rk a.id = 0) ∧
    ∀ m, mgrRef a = some m →
      ∃ p, parentIn A a = some p ∧ rk a.id = rk p.id + 1

/-! ## Sample data used by counterexamples and witnesses -/

/-- A minimal business analyst record with the given id, manager link and
activity flag. -/
def mkBA (id : String) (mgr : Option String) (active : Bool) : BusinessAnalyst :=
  { id := id, firstName := "F", lastName := "L", email := none, level := .senior,
    lineManagerId := mgr, department := none, startDate := none,
    lastPromotionDate := none, isActive := active, createdAt := 0, updatedAt := 0 }

/-- An update payload that only sets `lineManagerId`. -/
def mkMgrPayload (mgr : Option (Option String)) : UpdateBARequest :=
  { firstName := none, lastName := none, email := none, level := none,
    lineManagerId := mgr, department := none, startDate := none }

/-- A minimal talent round record. -/
def mkRound (id quarter : String) (year : Int) (st : RoundStatus) : TalentRound :=
  { id := id, name := "R", quarter := quarter, year := year, deadline := 10,
    status := st, createdBy := "system", createdAt := 0, completedAt := none,
    description := none }

/-- A minimal create-review request with no concerns raised. -/
def mkReviewReq (ba round : String) : CreateReviewRequest :=
  { roundId := round, businessAnalystId := ba, reviewerId := none,
    wellbeingConcerns := { hasIssues := false, details := none },
    performanceConcerns := { hasIssues := false, details := none },
    developmentOpportunities := { hasOpportunities := false, details := none },
    promotionReadiness := .ready, actions := none, generalNotes := none }

/-- An update-review payload with every key absent. -/
def emptyReviewUpdate : UpdateReviewRequest :=
  { roundId := none, businessAnalystId := none, reviewerId := none,
    wellbeingConcerns := none, performanceConcerns := none,
    developmentOpportunities := none, promotionReadiness := none,
    actions := none, generalNotes := none }

/-- A minimal review record with no concerns raised. -/
def mkReview (id ba round : String) (complete : Bool) : Review :=
  { id := id, roundId := round, businessAnalystId := ba, reviewerId := none,
    wellbeingConcerns := { hasIssues := false, details := none },
    performanceConcerns := { hasIssues := false, details := none },
    developmentOpportunities := { hasOpportunities := false, details := none },
    promotionReadiness := .ready, actions := [], generalNotes := none,
    isComplete := complete, completedAt := none, createdAt := 0, updatedAt := 0 }

/-- Rounds for the C2 witness: one draft, one active, one completed. -/
def C2wRounds : List TalentRound :=
  [mkRound "r1" "Q1" 2025 .draft, mkRound "r2" "Q2" 2025 .active,
   mkRound "r3" "Q3" 2025 .completed]

/-- One active analyst, for the C2 witness summary. -/
def C2wBAs : List BusinessAnalyst := [mkBA "a" none true]

/-- One complete review of round `r2`, for the C2 witness summary. -/
def C2wReviews : List Review := [mkReview "v1" "a" "r2" true]

/-- Store for the C3 witness: active root `a` with active report `b`. -/
def C3wStore : List BusinessAnalyst :=
  [mkBA "a" none true, mkBA "b" (some "a") true]

/-- A rank function witnessing that the manager links of `C3wStore` are
well founded. -/
def C3wRk : String → Nat := fun id => if id = "b" then 1 else 0

/-- Rounds store for the C2 and C4 counterexamples: one active round. -/
def C24rounds : List TalentRound := [mkRound "r1" "Q1" 2025 .active]

/-- Staff store for the C2 and C4 counterexamples: one active analyst. -/
def C24bas : List BusinessAnalyst := [mkBA "a" none true]

/-- Reviews for the C2 and C4 counterexamples: two complete reviews are
recorded for round `r1`, one of them for an id that is no active analyst. -/
def C24reviews : List Review :=
  [mkReview "v1" "a" "r1" true, mkReview "v2" "z" "r1" true]

/-- Store for the C3 counterexample: the only manager `m` is inactive and
the active analyst `a` still points to it. -/
def C3exStore : List BusinessAnalyst := [mkBA "m" none false, mkBA "a" (some "m") true]

/-- Reviews store for the C6 counterexample: distinct analysts, same round. -/
def C6exReviews : List Review :=
  [mkReview "v1" "a" "r1" true, mkReview "v2" "b" "r1" true]

/-- Update payload for the C6 counterexample: only `businessAnalystId` is set. -/
def C6exPayload : UpdateReviewRequest :=
  { roundId := none, businessAnalystId := some "a", reviewerId := none,
    wellbeingConcerns := none, performanceConcerns := none,
    developmentOpportunities := none, promotionReadiness := none,
    actions := none, generalNotes := none }

/-- The record stored for `v2` after the C6 counterexample update. -/
def C6exUpdated : Review :=
  { mkReview "v2" "b" "r1" true with businessAnalystId := "a", updatedAt := 9 }

/-- First create request of the C9 counterexample (quarter `"Q1"`). -/
def C9exReq1 : CreateRoundRequest :=
  { name := "R", quarter := "Q1", year := 2025, deadline := 5, description := none }

/-- Second create request of the C9 counterexample (quarter `" Q1"`, which
the duplicate check compares untrimmed but the store receives trimmed). -/
def C9exReq2 : CreateRoundRequest :=
  { name := "R", quarter := " Q1", year := 2025, deadline := 5, description := none }

/-- Store used by the C8 witness. -/
def C8exStore : List BusinessAnalyst := [mkBA "a" none true, mkBA "b" (some "a") true]

/-- Storage state used by the C7 witness. -/
def C7exState : StorageState :=
  { businessAnalysts := .parsed (.arr [.num 1]), talentRounds := .missing,
    reviews := .parseError }

/-- The document exported from `C7exState`. -/
def C7exDoc : Json :=
  .obj [("businessAnalysts", .arr [.num 1]), ("talentRounds", .arr []),
        ("reviews", .arr []), ("exportedAt", .str "t"), ("version", .str "1.0")]

/-- Store for the C1 witness: `a` reports to `b`. -/
def C1wStore : List BusinessAnalyst := [mkBA "b" none true, mkBA "a" (some "b") true]

/-- A minimal create request. -/
def mkBAReq (mgr : Option String) : CreateBARequest :=
  { firstName := "F", lastName := "L", email := none, level := .senior,
    lineManagerId := mgr, department := none, startDate := none }

/-! ## Counterexamples -/

/-- Store for the C1 counterexample: `a` is a root, `b` reports to `a`. -/
def C1exStore : List BusinessAnalyst := [mkBA "a" none true, mkBA "b" (some "a") true]

/-- The record returned for `a` after `update("a", lineManagerId := "a")`. -/
def C1exUpdated : BusinessAnalyst :=
  { mkBA "a" none true with lineManagerId := some "a", updatedAt := 5 }

/-- C1 counterexample: `update` accepts setting a business analyst's
`lineManagerId` to its own id. The new manager id `"a"` trivially has the
analyst `"a"` in its transitive manager chain, yet no error is thrown, and
after the call the analyst is its own manager, refuting both halves of the
claim. -/
theorem C1_counterexample :
    updateBA C1exStore "a" (mkMgrPayload (some (some "a"))) 5 =
      .ok (some ([C1exUpdated, mkBA "b" (some "a") true], C1exUpdated)) ∧
    InChain C1exStore "a" "a" ∧
    getById (applyBAOp C1exStore (.update "a" (mkMgrPayload (some (some "a"))) 5)) "a" =
      some C1exUpdated ∧
    mgrRef C1exUpdated = some C1exUpdated.id := by
  refine ⟨rfl, ⟨0, rfl⟩, rfl, rfl⟩

/-- C2 counterexample: with one active analyst and two complete reviews the
completion summary of the active round is 200 percent, not 100, and
`complete` still succeeds instead of throwing, refuting the claim that the
transition happens only when the summary is exactly 100 percent. -/
theorem C2_counterexample :
    (getRoundSummary C24rounds C24bas C24reviews "r1").toOption.map
        (fun s => s.completionPercentage) = some 200 ∧
    (completeRound C24rounds C24bas C24reviews "r1" 9).toOption.map
        (Option.map fun p => p.2.status) = some (some .completed) := by
  exact ⟨rfl, rfl⟩

/-- C3 counterexample: the active analyst `a` has a `lineManagerId`, so it
is no root, and its manager is inactive, so it is nobody's child: the org
chart is empty and `a` appears zero times instead of exactly once. -/
theorem C3_counterexample :
    mkBA "a" (some "m") true ∈ C3exStore ∧
    (mkBA "a" (some "m") true).isActive = true ∧
    getOrgChart C3exStore = [] ∧
    (flattenForest (getOrgChart C3exStore)).count (mkBA "a" (some "m") true) = 0 := by
  refine ⟨by decide, rfl, rfl, rfl⟩

/-- C4 counterexample: in the same state as the C2 counterexample the
summary has `pendingReviews = -1` (negative) and
`completionPercentage = 200` (above 100), refuting the claimed bounds. -/
theorem C4_counterexample :
    (getRoundSummary C24rounds C24bas C24reviews "r1").toOption.map
        (fun s => (s.pendingReviews, s.completionPercentage)) = some (-1, 200) := by
  exact rfl

/-- C6 counterexample: updating review `v2` to analyst `a` succeeds although
a review for `(a, r1)` already exists, so afterwards two reviews share the
`(businessAnalystId, roundId)` pair, refuting that every review-service
operation preserves at-most-one-review-per-pair. -/
theorem C6_counterexample :
    updateReview C6exReviews "v2" C6exPayload 9 =
      .ok (some ([mkReview "v1" "a" "r1" true, C6exUpdated], C6exUpdated)) ∧
    C6exUpdated.businessAnalystId = (mkReview "v1" "a" "r1" true).businessAnalystId ∧
    C6exUpdated.roundId = (mkReview "v1" "a" "r1" true).roundId := by
  refine ⟨rfl, rfl, rfl⟩

/-- C9 counterexample: two successful `create` calls from the empty store
leave two rounds with the same `(quarter, year)` pair, because the
duplicate check compares the raw quarter `" Q1"` with the stored `"Q1"`
while the stored record keeps the trimmed quarter. -/
theorem C9_counterexample :
    (applyRoundOps [] [.create C9exReq1 "r1" 0 0, .create C9exReq2 "r2" 1 0]).map
      (fun r => (r.quarter, r.year)) = [("Q1", 2025), ("Q1", 2025)] := by
  rfl

/-- C5: the storage accessor never throws on a read: it returns the parsed
array when the stored value is a JSON array and the empty array when the
read failed, the key is absent, the stored text is not valid JSON, or the
parsed value is not an array; a write throws exactly when the underlying
store fails and otherwise stores the serialisation of the given array,
which reads back unchanged. -/
theorem C5_storage_spec :
    (∀ xs : List Json, loadFromStorage (.parsed (.arr xs)) = xs) ∧
    loadFromStorage .readError = [] ∧
    loadFromStorage .missing = [] ∧
    loadFromStorage .parseError = [] ∧
    (∀ j : Json, loadFromStorage (.parsed j) =
      match j with | .arr xs => xs | _ => []) ∧
    (∀ xs : List Json, saveToStorage xs true =
      .error "Storage quota exceeded or localStorage unavailable") ∧
    (∀ xs : List Json, saveToStorage xs false = .ok (.parsed (.arr xs))) ∧
    (∀ xs : List Json, (saveToStorage xs false).map loadFromStorage = .ok xs) := by
  refine ⟨fun xs => rfl, rfl, rfl, rfl, fun j => ?_, fun xs => rfl, fun xs => rfl,
    fun xs => rfl⟩
  cases j <;> rfl

/-! ## Index helper lemmas -/

theorem findIdx?_some_lt {α : Type _} {p : α → Bool} {l : List α} {i : Nat}
    (h : l.findIdx? p = some i) : i < l.length := by
  rw [List.findIdx?_eq_some_iff_findIdx_eq] at h
  exact h.1

theorem get!_of_lt {α : Type _} [Inhabited α] {l : List α} {i : Nat}
    (h : i < l.length) : l.get! i = l.get ⟨i, h⟩ := by
  rw [List.get!_eq_getElem!, getElem!_pos]
  rfl

theorem findIdx?_none_of_not_exists {α : Type _} {p : α → Bool} {l : List α}
    (h : ¬ ∃ x ∈ l, p x = true) : l.findIdx? p = none := by
  rw [List.findIdx?_eq_none_iff]
  intro x hx
  by_contra hpx
  exact h ⟨x, hx, by simpa using hpx⟩

/-- C8: for an id with no stored record, `deactivate` returns `false` and
leaves the store untouched; for a stored id it returns `true` and replaces
exactly the first matching record by a copy whose only changed fields are
`isActive` (now `false`) and `updatedAt` (now the call time), keeping every
other record, the record count and all other fields of the record. -/
theorem C8_deactivate_frame (l : List BusinessAnalyst) (id : String) (now : Int) :
    ((¬ ∃ ba ∈ l, ba.id = id) → deactivateBA l id now = (false, l)) ∧
    ((∃ ba ∈ l, ba.id = id) → (deactivateBA l id now).1 = true) ∧
    ∀ i, l.findIdx? (fun ba => ba.id = id) = some i →
      ∃ h : i < l.length,
        (deactivateBA l id now).1 = true ∧
        (deactivateBA l id now).2 =
          l.set i { l.get ⟨i, h⟩ with isActive := false, updatedAt := now } ∧
        (deactivateBA l id now).2.length = l.length ∧
        (∀ j, j ≠ i → (deactivateBA l id now).2[j]? = l[j]?) ∧
        (deactivateBA l id now).2[i]? =
          some { l.get ⟨i, h⟩ with isActive := false, updatedAt := now } := by
  refine ⟨fun hno => ?_, fun hyes => ?_, fun i hi => ?_⟩
  · have h : l.findIdx? (fun ba => ba.id = id) = none :=
      findIdx?_none_of_not_exists (by simpa using hno)
    simp [deactivateBA, h]
  · obtain ⟨ba, hmem, hid⟩ := hyes
    have h : l.findIdx? (fun ba => ba.id = id) =
        some (l.findIdx (fun ba => ba.id = id)) :=
      List.findIdx?_eq_some_of_exists ⟨ba, hmem, by simpa using hid⟩
    simp [deactivateBA, h]
  · have hlt : i < l.length := findIdx?_some_lt hi
    have hge : l[i]! = l[i] := getElem!_pos l i hlt
    refine ⟨hlt, ?_, ?_, ?_, ?_, ?_⟩
    · simp [deactivateBA, hi]
    · simp [deactivateBA, hi, get!_of_lt hlt, hge]
    · simp [deactivateBA, hi]
    · intro j hj
      simp [deactivateBA, hi, List.getElem?_set_ne (Ne.symm hj)]
    · simp [deactivateBA, hi, get!_of_lt hlt, hge,
        List.getElem?_set_self (by simpa using hlt)]

/-- Witness for C8 at a concrete store: deactivating `b` keeps `a`
untouched and stores the flipped copy of `b`. -/
theorem C8_deactivate_frame_witness :
    (deactivateBA C8exStore "b" 7).1 = true ∧
    (deactivateBA C8exStore "b" 7).2 =
      [mkBA "a" none true, { mkBA "b" (some "a") true with isActive := false, updatedAt := 7 }] ∧
    deactivateBA C8exStore "zzz" 7 = (false, C8exStore) := by
  have h := C8_deactivate_frame C8exStore "b" 7
  obtain ⟨hlt, h1, h2, -⟩ := h.2.2 1 (by decide)
  refine ⟨h1, h2.trans rfl, ?_⟩
  exact (C8_deactivate_frame C8exStore "zzz" 7).1 (by decide)

/-- C7: export always succeeds and produces the document holding exactly
the three arrays read from storage; importing that document (with a
working underlying store, the three write-failure flags false) succeeds,
reports the sum of the three lengths as imported, and stores back exactly
the exported arrays. -/
theorem C7_export_import_roundtrip (st st2 : StorageState) (ea ts : String) :
    (exportAll st ea ts).success = true ∧
    (exportAll st ea ts).data = some (Json.obj
      [("businessAnalysts", .arr (loadFromStorage st.businessAnalysts)),
       ("talentRounds", .arr (loadFromStorage st.talentRounds)),
       ("reviews", .arr (loadFromStorage st.reviews)),
       ("exportedAt", .str ea), ("version", .str "1.0")]) ∧
    ∀ doc, (exportAll st ea ts).data = some doc →
      (importData doc st2 false false false).success = true ∧
      (importData doc st2 false false false).errors = [] ∧
      (importData doc st2 false false false).imported =
        (loadFromStorage st.businessAnalysts).length +
        (loadFromStorage st.talentRounds).length +
        (loadFromStorage st.reviews).length ∧
      (importData doc st2 false false false).state.businessAnalysts =
        .parsed (.arr (loadFromStorage st.businessAnalysts)) ∧
      (importData doc st2 false false false).state.talentRounds =
        .parsed (.arr (loadFromStorage st.talentRounds)) ∧
      (importData doc st2 false false false).state.reviews =
        .parsed (.arr (loadFromStorage st.reviews)) ∧
      loadFromStorage (importData doc st2 false false false).state.businessAnalysts =
        loadFromStorage st.businessAnalysts ∧
      loadFromStorage (importData doc st2 false false false).state.talentRounds =
        loadFromStorage st.talentRounds ∧
      loadFromStorage (importData doc st2 false false false).state.reviews =
        loadFromStorage st.reviews := by
  refine ⟨rfl, rfl, fun doc hdoc => ?_⟩
  have : doc = Json.obj
      [("businessAnalysts", .arr (loadFromStorage st.businessAnalysts)),
       ("talentRounds", .arr (loadFromStorage st.talentRounds)),
       ("reviews", .arr (loadFromStorage st.reviews)),
       ("exportedAt", .str ea), ("version", .str "1.0")] := by
    injection hdoc.symm.trans rfl
  subst this
  exact ⟨rfl, rfl, rfl, rfl, rfl, rfl, rfl, rfl, rfl⟩

/-- Witness for C7 at a concrete storage state. -/
theorem C7_export_import_roundtrip_witness :
    (exportAll C7exState "t" "f").success = true ∧
    (importData C7exDoc C7exState false false false).success = true ∧
    (importData C7exDoc C7exState false false false).imported = 1 := by
  have h := C7_export_import_roundtrip C7exState C7exState "t" "f"
  have h2 := h.2.2 C7exDoc h.2.1
  exact ⟨h.1, h2.1, h2.2.2.1.trans rfl⟩

/-! ## Properties of the circular-reference walk -/

theorem mgrIter_zero (l : List BusinessAnalyst) (x : String) :
    mgrIter l 0 x = some x := rfl

theorem mgrIter_succ (l : List BusinessAnalyst) (k : Nat) (x : String) :
    mgrIter l (k + 1) x = (mgrStep l x).bind (mgrIter l k) := rfl

theorem mgrIter_succ_far (l : List BusinessAnalyst) :
    ∀ (k : Nat) (x : String),
      mgrIter l (k + 1) x = (mgrIter l k x).bind (mgrStep l) := by
  intro k
  induction k with
  | zero =>
    intro x
    rw [mgrIter_succ, mgrIter_zero, Option.some_bind]
    cases h : mgrStep l x <;> simp [mgrIter_zero]
  | succ k ih =>
    intro x
    rw [mgrIter_succ, mgrIter_succ l k x]
    cases h : mgrStep l x with
    | none => simp
    | some y => simp only [Option.some_bind]; exact ih y

theorem mgrIter_add (l : List BusinessAnalyst) :
    ∀ (m n : Nat) (x : String),
      mgrIter l (m + n) x = (mgrIter l m x).bind (mgrIter l n) := by
  intro m n
  induction n with
  | zero =>
    intro x
    cases h : mgrIter l m x <;> simp [mgrIter_zero, h]
  | succ n ih =>
    intro x
    have h1 : m + (n + 1) = (m + n) + 1 := rfl
    rw [h1, mgrIter_succ_far, ih, Option.bind_assoc]
    cases hx : mgrIter l m x with
    | none => simp
    | some y =>
      simp only [Option.some_bind]
      exact (mgrIter_succ_far l n y).symm

theorem mgrIter_isSome_of_le (l : List BusinessAnalyst) {j n : Nat} {x y : String}
    (hle : j ≤ n) (h : mgrIter l n x = some y) : (mgrIter l j x).isSome := by
  obtain ⟨k, rfl⟩ := Nat.exists_eq_add_of_le hle
  rw [mgrIter_add] at h
  cases hj : mgrIter l j x with
  | none => rw [hj] at h; simp at h
  | some z => simp

theorem mgrStep_mem_targets {l : List BusinessAnalyst} {x t : String}
    (h : mgrStep l x = some t) : t ∈ l.filterMap mgrRef := by
  unfold mgrStep getById at h
  cases hf : l.find? (fun ba => ba.id = x) with
  | none => rw [hf] at h; simp at h
  | some r =>
    rw [hf] at h
    simp only [Option.some_bind] at h
    exact List.mem_filterMap.mpr ⟨r, List.mem_of_find?_eq_some hf, h⟩

/-- A minimal first hit of the manager walk needs at most `l.length` steps:
all intermediate ids before the first hit are distinct and, apart from the
start, are manager-link targets of stored records. -/
theorem firstHit_le_length (l : List BusinessAnalyst) (c baId : String)
    (h : InChain l c baId) :
    ∃ n, mgrIter l n c = some baId ∧ (∀ k < n, mgrIter l k c ≠ some baId) ∧
      n ≤ l.length := by
  have hdec : DecidablePred fun n => mgrIter l n c = some baId := fun n => inferInstance
  let n := Nat.find h
  refine ⟨n, Nat.find_spec h, fun k hk => Nat.find_min h hk, ?_⟩
  by_contra hgt
  push_neg at hgt
  -- the iterates 0..n are pairwise distinct `some` values
  have hsome : ∀ i ≤ n, (mgrIter l i c).isSome :=
    fun i hi => mgrIter_isSome_of_le l hi (Nat.find_spec h)
  have hinj : ∀ i ∈ List.range (n + 1), ∀ j ∈ List.range (n + 1),
      mgrIter l i c = mgrIter l j c → i = j := by
    intro i hi j hj hij
    simp only [List.mem_range, Nat.lt_succ_iff] at hi hj
    by_contra hne
    -- w.l.o.g. i < j: a repeat would give an earlier hit
    rcases Nat.lt_or_ge i j with hlt | hge
    · have hsplit : mgrIter l (j + (n - j)) c = some baId := by
        rw [Nat.add_sub_cancel' hj]; exact Nat.find_spec h
      rw [mgrIter_add, ← hij] at hsplit
      rw [← mgrIter_add] at hsplit
      have : i + (n - j) < n := by omega
      exact Nat.find_min h this hsplit
    · have hlt : j < i := lt_of_le_of_ne hge (Ne.symm hne)
      have hsplit : mgrIter l (i + (n - i)) c = some baId := by
        rw [Nat.add_sub_cancel' hi]; exact Nat.find_spec h
      rw [mgrIter_add, hij] at hsplit
      rw [← mgrIter_add] at hsplit
      have : j + (n - i) < n := by omega
      exact Nat.find_min h this hsplit
  have hnodup : ((List.range (n + 1)).map fun i => mgrIter l i c).Nodup :=
    (List.nodup_range _).map_on hinj
  have hsub : ((List.range (n + 1)).map fun i => mgrIter l i c) ⊆
      (c :: l.filterMap mgrRef).map some := by
    intro o ho
    obtain ⟨i, hi, rfl⟩ := List.mem_map.mp ho
    simp only [List.mem_range, Nat.lt_succ_iff] at hi
    cases i with
    | zero => exact List.mem_map.mpr ⟨c, List.mem_cons_self _ _, rfl⟩
    | succ i =>
      obtain ⟨v, hv⟩ := Option.isSome_iff_exists.mp (hsome (i + 1) hi)
      rw [hv]
      have hstep : ∃ y, mgrIter l i c = some y ∧ mgrStep l y = some v := by
        have := mgrIter_succ_far l i c
        rw [hv] at this
        cases hy : mgrIter l i c with
        | none => rw [hy] at this; simp at this
        | some y => rw [hy] at this; exact ⟨y, rfl, this.symm⟩
      obtain ⟨y, -, hy2⟩ := hstep
      exact List.mem_map.mpr ⟨v, List.mem_cons_of_mem _ (mgrStep_mem_targets hy2), rfl⟩
  have hlen := (List.subperm_of_subset hnodup hsub).length_le
  simp only [List.length_map, List.length_range, List.length_cons] at hlen
  have := List.length_filterMap_le mgrRef l
  omega

theorem wccrLoop_succ_none (l : List BusinessAnalyst) (baId : String)
    (fuel : Nat) (visited : List String) :
    wccrLoop l baId (fuel + 1) visited none = some false := rfl

theorem wccrLoop_succ_empty (l : List BusinessAnalyst) (baId : String)
    (fuel : Nat) (visited : List String) :
    wccrLoop l baId (fuel + 1) visited (some "") = some false := rfl

theorem wccrLoop_succ_some (l : List BusinessAnalyst) (baId : String)
    (fuel : Nat) (visited : List String) (c : String) (hc : c ≠ "") :
    wccrLoop l baId (fuel + 1) visited (some c) =
      if c ∈ visited then some false
      else if c = baId then some true
      else wccrLoop l baId fuel (c :: visited) ((getById l c).bind (·.lineManagerId)) := by
  have htr : jsTruthy (some c) = true := by simp [jsTruthy, hc]
  simp only [wccrLoop, htr, dite_true]

/-- Fuel sufficiency of the visited-set walk: with any set of already
visited ids drawn without repetition from `allowed`, a current id drawn
from `allowed`, and every manager link landing in `allowed`, fuel beyond
`allowed.length - visited.length` makes the loop return. -/
theorem wccrLoop_isSome (l : List BusinessAnalyst) (baId : String)
    (allowed : List String)
    (hstep : ∀ c r t, getById l c = some r → r.lineManagerId = some t → t ∈ allowed) :
    ∀ (fuel : Nat) (visited : List String) (curr : Option String),
      visited.Nodup → (∀ v ∈ visited, v ∈ allowed) →
      (∀ c, curr = some c → c ≠ "" → c ∈ allowed) →
      allowed.length < fuel + visited.length →
      (wccrLoop l baId fuel visited curr).isSome := by
  intro fuel
  induction fuel with
  | zero =>
    intro visited curr hnd hsubv _ hbound
    exact absurd ((List.subperm_of_subset hnd hsubv).length_le) (by omega)
  | succ fuel ih =>
    intro visited curr hnd hsubv hcurr hbound
    cases curr with
    | none => simp [wccrLoop_succ_none]
    | some c =>
      by_cases hc : c = ""
      · subst hc; simp [wccrLoop_succ_empty]
      · rw [wccrLoop_succ_some l baId fuel visited c hc]
        by_cases hv : c ∈ visited
        · simp [hv]
        · by_cases hb : c = baId
          · subst hb; simp [hv]
          · have hrec := ih (c :: visited) ((getById l c).bind (·.lineManagerId))
              (List.nodup_cons.mpr ⟨hv, hnd⟩)
              (by
                intro v hvmem
                rcases List.mem_cons.mp hvmem with rfl | hvm
                · exact hcurr v rfl hc
                · exact hsubv v hvm)
              (by
                intro t hteq htne
                cases hfind : getById l c with
                | none => rw [hfind] at hteq; simp at hteq
                | some r =>
                  rw [hfind] at hteq
                  simp only [Option.some_bind] at hteq
                  exact hstep c r t hfind hteq)
              (by simp only [List.length_cons]; omega)
            simp only [if_neg hv, if_neg hb]
            exact hrec

/-- C10: the `wouldCreateCircularReference` walk terminates on every store
and every argument pair, including stores whose manager links already form
a cycle that does not involve the updated analyst: with the fuel the
service uses (`l.length + 2`) the loop always reaches one of its two
`return`s, because every visited id is recorded in the set and the walk
stops as soon as an id repeats or the chain ends. -/
theorem C10_wccr_terminates (l : List BusinessAnalyst) (baId : String)
    (mid : Option String) :
    (wccrLoop l baId (l.length + 2) [] mid).isSome = true := by
  have h := wccrLoop_isSome l baId
    ((match mid with | some m => [m] | none => []) ++ l.filterMap (·.lineManagerId))
    (by
      intro c r t hfind ht
      refine List.mem_append_right _ ?_
      exact List.mem_filterMap.mpr ⟨r, List.mem_of_find?_eq_some hfind, ht⟩)
    (l.length + 2) [] mid List.nodup_nil (by simp)
    (by
      intro c hceq _
      subst hceq
      exact List.mem_append_left _ (by simp))
    (by
      have h1 : (match mid with | some m => [m] | none => ([] : List String)).length ≤ 1 := by
        cases mid <;> simp
      have h2 := List.length_filterMap_le (fun ba : BusinessAnalyst => ba.lineManagerId) l
      simp only [List.length_append]
      omega)
  simpa using h

theorem mgrStep_eq_some_elim {l : List BusinessAnalyst} {c c1 : String}
    (hstep : mgrStep l c = some c1) :
    ∃ r, getById l c = some r ∧ r.lineManagerId = some c1 ∧ c1 ≠ "" := by
  unfold mgrStep at hstep
  cases hf : getById l c with
  | none => rw [hf] at hstep; simp at hstep
  | some r =>
    rw [hf, Option.some_bind] at hstep
    unfold mgrRef at hstep
    cases hlm : r.lineManagerId with
    | none => rw [hlm] at hstep; simp at hstep
    | some s =>
      rw [hlm] at hstep
      have hstep' : (if s = "" then none else some s) = some c1 := hstep
      by_cases hs : s = ""
      · rw [if_pos hs] at hstep'; simp at hstep'
      · rw [if_neg hs] at hstep'
        obtain rfl : s = c1 := by injection hstep'
        exact ⟨r, rfl, hlm, hs⟩

theorem mgrStep_of_raw_link {l : List BusinessAnalyst} {c c1 : String}
    {r : BusinessAnalyst} (hf : getById l c = some r)
    (hlm : r.lineManagerId = some c1) (hc1 : c1 ≠ "") :
    mgrStep l c = some c1 := by
  unfold mgrStep
  rw [hf, Option.some_bind]
  unfold mgrRef
  rw [hlm]
  show (if c1 = "" then none else some c1) = some c1
  rw [if_neg hc1]

/-- A walk that returns `true` exhibits a manager chain from the current id
to the analyst under update. -/
theorem wccrLoop_true_chain (l : List BusinessAnalyst) (baId : String) :
    ∀ (fuel : Nat) (visited : List String) (curr : Option String),
      wccrLoop l baId fuel visited curr = some true →
      ∃ c, curr = some c ∧ c ≠ "" ∧ InChain l c baId := by
  intro fuel
  induction fuel with
  | zero =>
    intro visited curr h
    exact absurd h (by simp [wccrLoop])
  | succ fuel ih =>
    intro visited curr h
    cases curr with
    | none => rw [wccrLoop_succ_none] at h; exact absurd h (by simp)
    | some c =>
      by_cases hc : c = ""
      · subst hc; rw [wccrLoop_succ_empty] at h; exact absurd h (by simp)
      · rw [wccrLoop_succ_some l baId fuel visited c hc] at h
        by_cases hv : c ∈ visited
        · rw [if_pos hv] at h; exact absurd h (by simp)
        · rw [if_neg hv] at h
          by_cases hb : c = baId
          · subst hb
            exact ⟨c, rfl, hc, ⟨0, rfl⟩⟩
          · rw [if_neg hb] at h
            obtain ⟨c1, hnext, hc1, n, hchain⟩ := ih _ _ h
            have hstep : mgrStep l c = some c1 := by
              cases hf : getById l c with
              | none => rw [hf] at hnext; simp at hnext
              | some r =>
                rw [hf, Option.some_bind] at hnext
                exact mgrStep_of_raw_link hf hnext hc1
            refine ⟨c, rfl, hc, n + 1, ?_⟩
            rw [mgrIter_succ, hstep, Option.some_bind]
            exact hchain

/-- Conversely, a manager chain whose first hit of the analyst happens
within the fuel makes the walk return `true`. The `visited` set may hold
ids only if they sit strictly farther from the analyst than the current
one, which holds for the actual runs of the walk. -/
theorem chain_wccrLoop_true (l : List BusinessAnalyst) (baId : String) :
    ∀ (n : Nat) (fuel : Nat) (visited : List String) (c : String),
      n < fuel →
      mgrIter l n c = some baId →
      (∀ k < n, mgrIter l k c ≠ some baId) →
      (∀ v ∈ visited, ∀ m, mgrIter l m v = some baId → n < m) →
      c ≠ "" →
      wccrLoop l baId fuel visited (some c) = some true := by
  intro n
  induction n with
  | zero =>
    intro fuel visited c hfuel hhit hmin hvis hc
    have hcb : c = baId := by
      have := hhit
      rw [mgrIter_zero] at this
      injection this
    obtain ⟨fuel, rfl⟩ : ∃ f, fuel = f + 1 := ⟨fuel - 1, by omega⟩
    rw [wccrLoop_succ_some l baId fuel visited c hc]
    have hcv : c ∉ visited := fun hmem =>
      absurd (hvis c hmem 0 (by rw [mgrIter_zero, hcb])) (by omega)
    rw [if_neg hcv, if_pos hcb]
  | succ n ih =>
    intro fuel visited c hfuel hhit hmin hvis hc
    obtain ⟨fuel, rfl⟩ : ∃ f, fuel = f + 1 := ⟨fuel - 1, by omega⟩
    have hcb : c ≠ baId := by
      intro hcb
      exact hmin 0 (Nat.succ_pos n) (by rw [mgrIter_zero, hcb])
    have hcv : c ∉ visited := fun hmem =>
      absurd (hvis c hmem (n + 1) hhit) (by omega)
    rw [wccrLoop_succ_some l baId fuel visited c hc, if_neg hcv, if_neg hcb]
    rw [mgrIter_succ] at hhit
    cases hstep : mgrStep l c with
    | none => rw [hstep] at hhit; exact absurd hhit (by simp)
    | some c1 =>
      rw [hstep, Option.some_bind] at hhit
      obtain ⟨r, hf, hlink, hc1⟩ := mgrStep_eq_some_elim hstep
      have hnext : (getById l c).bind (·.lineManagerId) = some c1 := by
        rw [hf, Option.some_bind, hlink]
      rw [hnext]
      refine ih fuel (c :: visited) c1 (by omega) hhit ?_ ?_ hc1
      · intro k hk hkhit
        refine hmin (k + 1) (by omega) ?_
        rw [mgrIter_succ, hstep, Option.some_bind]
        exact hkhit
      · intro v hvmem m hmhit
        rcases List.mem_cons.mp hvmem with rfl | hvm
        · have := hmin
          by_contra hle
          push_neg at hle
          rcases Nat.lt_or_ge m (n + 1) with hlt | hge
          · exact hmin m hlt hmhit
          · omega
        · exact Nat.lt_of_succ_lt (hvis v hvm m hmhit)

/-- The circular check answers `true` exactly when the proposed (distinct,
truthy) manager id has the analyst in its transitive manager chain. -/
theorem wccr_eq_true_iff (l : List BusinessAnalyst) {baId m : String}
    (hm : m ≠ "") (hne : m ≠ baId) :
    wouldCreateCircularReference l baId (some m) = true ↔ InChain l m baId := by
  have hcond : ¬ (¬ jsTruthy (some m) = true ∨ some m = some baId) := by
    rintro (h1 | h2)
    · exact h1 (by simp [jsTruthy, hm])
    · exact hne (by injection h2)
  constructor
  · intro h
    unfold wouldCreateCircularReference at h
    rw [if_neg hcond] at h
    cases hres : wccrLoop l baId (l.length + 2) [] (some m) with
    | none => rw [hres] at h; simp at h
    | some b =>
      rw [hres] at h
      have hb : b = true := by simpa using h
      subst hb
      obtain ⟨c, hceq, -, hchain⟩ := wccrLoop_true_chain l baId _ _ _ hres
      obtain rfl : m = c := by injection hceq
      exact hchain
  · intro h
    obtain ⟨n, hhit, hmin, hlen⟩ := firstHit_le_length l m baId h
    unfold wouldCreateCircularReference
    rw [if_neg hcond]
    rw [chain_wccrLoop_true l baId n (l.length + 2) [] m (by omega) hhit hmin
      (by simp) hm]
    rfl

/-! ## Surgery on the manager graph -/

theorem set_getElem_self {α : Type _} {l : List α} {i : Nat} (h : i < l.length) :
    l.set i l[i] = l := by
  apply List.ext_getElem?
  intro j
  rw [List.getElem?_set]
  by_cases hij : i = j
  · subst hij
    rw [if_pos rfl, if_pos h, List.getElem?_eq_getElem h]
  · rw [if_neg hij]

theorem getById_cons (b : BusinessAnalyst) (t : List BusinessAnalyst) (x : String) :
    getById (b :: t) x = if b.id = x then some b else getById t x := by
  unfold getById
  rw [List.find?_cons]
  by_cases h : b.id = x
  · simp [h]
  · simp [h]

theorem getById_mem_nodup {l : List BusinessAnalyst} {b : BusinessAnalyst}
    (hnd : (baIds l).Nodup) (hb : b ∈ l) : getById l b.id = some b := by
  induction l with
  | nil => exact absurd hb (List.not_mem_nil b)
  | cons c t ih =>
    rw [getById_cons]
    rcases List.mem_cons.mp hb with rfl | hbt
    · rw [if_pos rfl]
    · have hc : c.id ∉ baIds t := (List.nodup_cons.mp hnd).1
      have hbid : b.id ∈ baIds t := List.mem_map_of_mem (·.id) hbt
      have hne : c.id ≠ b.id := fun h => hc (h ▸ hbid)
      rw [if_neg hne]
      exact ih (List.nodup_cons.mp hnd).2 hbt

theorem getById_set {l : List BusinessAnalyst} {i : Nat} {a' : BusinessAnalyst}
    (hnd : (baIds l).Nodup) (hlt : i < l.length)
    (hid : a'.id = (l.get ⟨i, hlt⟩).id) (x : String) :
    getById (l.set i a') x = if x = a'.id then some a' else getById l x := by
  induction l generalizing i with
  | nil => exact absurd hlt (by simp)
  | cons b t ih =>
    cases i with
    | zero =>
      have hid0 : a'.id = b.id := hid
      show getById (a' :: t) x = _
      rw [getById_cons, getById_cons]
      by_cases hx : x = a'.id
      · rw [if_pos hx, if_pos (by rw [hx])]
      · rw [if_neg (fun h => hx h.symm), if_neg hx,
          if_neg (fun h => hx (by rw [← h, hid0]))]
    | succ j =>
      have hjt : j < t.length := by simpa using hlt
      have hidj : a'.id = (t.get ⟨j, hjt⟩).id := hid
      have hnd' := List.nodup_cons.mp hnd
      show getById (b :: t.set j a') x = _
      rw [getById_cons, getById_cons]
      by_cases hbx : b.id = x
      · have hxa : x ≠ a'.id := by
          intro hxe
          apply hnd'.1
          show b.id ∈ List.map (fun ba => ba.id) t
          have hbid : b.id = (t.get ⟨j, hjt⟩).id := by rw [hbx, hxe, hidj]
          rw [hbid]
          exact List.mem_map_of_mem (fun ba => ba.id) (List.get_mem t j hjt)
        rw [if_pos hbx, if_neg hxa, if_pos hbx]
      · rw [if_neg hbx, if_neg hbx, ih hnd'.2 hjt hidj]

theorem baIds_set {l : List BusinessAnalyst} {i : Nat} {a' : BusinessAnalyst}
    (hlt : i < l.length) (hid : a'.id = (l.get ⟨i, hlt⟩).id) :
    baIds (l.set i a') = baIds l := by
  unfold baIds
  rw [List.map_set, hid]
  have hlt' : i < (l.map (fun ba => ba.id)).length := by simpa using hlt
  have hv : (l.get ⟨i, hlt⟩).id = (l.map (fun ba => ba.id)).get ⟨i, hlt'⟩ := by
    simp only [List.get_eq_getElem, List.getElem_map]
  rw [hv]
  exact set_getElem_self hlt'

theorem mem_set_cases {l : List BusinessAnalyst} {i : Nat} {u b : BusinessAnalyst}
    (hnd : (baIds l).Nodup) (hlt : i < l.length)
    (hid : u.id = (l.get ⟨i, hlt⟩).id) (hb : b ∈ l.set i u) :
    b = u ∨ (b ∈ l ∧ b.id ≠ u.id) := by
  obtain ⟨j, hj, hbj⟩ := List.mem_iff_getElem.mp hb
  by_cases hij : i = j
  · subst hij
    left
    rw [List.getElem_set_self] at hbj
    exact hbj.symm
  · right
    rw [List.getElem_set_ne hij] at hbj
    have hjl : j < l.length := by simpa using hj
    refine ⟨hbj ▸ List.getElem_mem hjl, ?_⟩
    intro hbid
    have hjb : j < (baIds l).length := by simpa [baIds] using hjl
    have hib : i < (baIds l).length := by simpa [baIds] using hlt
    have h1 : (baIds l).get ⟨j, hjb⟩ = b.id := by
      simp only [baIds, List.get_eq_getElem, List.getElem_map]
      rw [hbj]
    have h2 : (baIds l).get ⟨i, hib⟩ = u.id := by
      simp only [baIds, List.get_eq_getElem, List.getElem_map]
      exact hid.symm
    have heq : (baIds l).get ⟨j, hjb⟩ = (baIds l).get ⟨i, hib⟩ := by
      rw [h1, h2, hbid]
    exact hij ((hnd.getElem_inj_iff.mp heq).symm)

theorem mgrStep_set_ne {l : List BusinessAnalyst} {i : Nat} {a' : BusinessAnalyst}
    (hnd : (baIds l).Nodup) (hlt : i < l.length)
    (hid : a'.id = (l.get ⟨i, hlt⟩).id) {x : String} (hx : x ≠ a'.id) :
    mgrStep (l.set i a') x = mgrStep l x := by
  unfold mgrStep
  rw [getById_set hnd hlt hid x, if_neg hx]

theorem mgrStep_set_self {l : List BusinessAnalyst} {i : Nat} {a' : BusinessAnalyst}
    (hnd : (baIds l).Nodup) (hlt : i < l.length)
    (hid : a'.id = (l.get ⟨i, hlt⟩).id) :
    mgrStep (l.set i a') a'.id = mgrRef a' := by
  unfold mgrStep
  rw [getById_set hnd hlt hid a'.id, if_pos rfl, Option.some_bind]

theorem getById_append (l : List BusinessAnalyst) (nba : BusinessAnalyst) (x : String) :
    getById (l ++ [nba]) x =
      (getById l x).or (if nba.id = x then some nba else none) := by
  unfold getById
  rw [List.find?_append]
  congr 1
  by_cases h : nba.id = x
  · simp [List.find?_cons, h]
  · simp [List.find?_cons, h]

theorem mgrStep_append_ne {l : List BusinessAnalyst} {nba : BusinessAnalyst}
    {x : String} (hx : x ≠ nba.id) :
    mgrStep (l ++ [nba]) x = mgrStep l x := by
  unfold mgrStep
  rw [getById_append]
  cases hf : getById l x with
  | some r => rfl
  | none => rw [Option.none_or, if_neg (fun h => hx h.symm)]

theorem mgrStep_append_self {l : List BusinessAnalyst} {nba : BusinessAnalyst}
    (hfresh : nba.id ∉ baIds l) :
    mgrStep (l ++ [nba]) nba.id = mgrRef nba := by
  unfold mgrStep
  rw [getById_append]
  cases hf : getById l nba.id with
  | some r =>
    have hrid : r.id = nba.id := by
      have := List.find?_some hf
      simpa using this
    exact absurd
      (hrid ▸ List.mem_map_of_mem (fun ba => ba.id) (List.mem_of_find?_eq_some hf))
      hfresh
  | none => rw [Option.none_or, if_pos rfl, Option.some_bind]

/-- Decomposition of a chain in a modified graph: either the chain already
exists in the original graph, or it first reaches the modified id through
original steps. -/
theorem mgrIter_decompose {l l' : List BusinessAnalyst} {e : String}
    (hdiff : ∀ x, x ≠ e → mgrStep l' x = mgrStep l x) :
    ∀ (n : Nat) (x t : String), mgrIter l' n x = some t →
      mgrIter l n x = some t ∨
      ∃ k ≤ n, mgrIter l k x = some e ∧ mgrIter l' (n - k) e = some t := by
  intro n
  induction n with
  | zero =>
    intro x t h
    rw [mgrIter_zero] at h ⊢
    exact Or.inl h
  | succ n ih =>
    intro x t h
    by_cases hx : x = e
    · subst hx
      exact Or.inr ⟨0, Nat.zero_le _, mgrIter_zero l x, by simpa using h⟩
    · rw [mgrIter_succ] at h
      cases hstep : mgrStep l' x with
      | none => rw [hstep] at h; simp at h
      | some y =>
        rw [hstep, Option.some_bind] at h
        have hstepl : mgrStep l x = some y := (hdiff x hx) ▸ hstep
        rcases ih y t h with hold | ⟨k, hk, h1, h2⟩
        · left
          rw [mgrIter_succ, hstepl, Option.some_bind]
          exact hold
        · right
          refine ⟨k + 1, by omega, ?_, ?_⟩
          · rw [mgrIter_succ, hstepl, Option.some_bind]; exact h1
          · have : n + 1 - (k + 1) = n - k := by omega
            rw [this]; exact h2

/-- A chain that never visits the modified id transfers between the two
graphs. -/
theorem mgrIter_transfer {l l' : List BusinessAnalyst} {e : String}
    (hdiff : ∀ x, x ≠ e → mgrStep l' x = mgrStep l x) :
    ∀ (n : Nat) (x t : String), mgrIter l n x = some t →
      (∀ k < n, mgrIter l k x ≠ some e) →
      mgrIter l' n x = some t := by
  intro n
  induction n with
  | zero =>
    intro x t h _
    exact h
  | succ n ih =>
    intro x t h havoid
    have hx : x ≠ e := by
      intro hxe
      exact havoid 0 (Nat.succ_pos n) (by rw [mgrIter_zero, hxe])
    rw [mgrIter_succ] at h ⊢
    cases hstep : mgrStep l x with
    | none => rw [hstep] at h; simp at h
    | some y =>
      rw [hstep, Option.some_bind] at h
      rw [hdiff x hx, hstep, Option.some_bind]
      refine ih y t h ?_
      intro k hk hke
      refine havoid (k + 1) (by omega) ?_
      rw [mgrIter_succ, hstep, Option.some_bind]
      exact hke

theorem mgrIter_congr {l l' : List BusinessAnalyst}
    (h : ∀ x, mgrStep l' x = mgrStep l x) :
    ∀ (n : Nat) (x : String), mgrIter l' n x = mgrIter l n x := by
  intro n
  induction n with
  | zero => intro x; rfl
  | succ n ih =>
    intro x
    rw [mgrIter_succ, mgrIter_succ, h x]
    cases mgrStep l x with
    | none => rfl
    | some y => rw [Option.some_bind, Option.some_bind, ih y]

theorem mgrIter_selfloop {l' : List BusinessAnalyst} {e : String}
    (h : mgrStep l' e = some e) : ∀ j, mgrIter l' j e = some e := by
  intro j
  induction j with
  | zero => rfl
  | succ j ih => rw [mgrIter_succ, h, Option.some_bind]; exact ih

/-- Chains of the original graph never reach an id that is no manager-link
target. -/
theorem chain_no_entry {l : List BusinessAnalyst} {e : String}
    (hnotgt : ∀ ba ∈ l, mgrRef ba ≠ some e) :
    ∀ (n : Nat) (m : String), m ≠ e → mgrIter l n m ≠ some e := by
  intro n
  induction n with
  | zero => intro m hm h; rw [mgrIter_zero] at h; exact hm (by injection h)
  | succ n ih =>
    intro m hm h
    rw [mgrIter_succ] at h
    cases hstep : mgrStep l m with
    | none => rw [hstep] at h; simp at h
    | some y =>
      rw [hstep, Option.some_bind] at h
      obtain ⟨r, hr, hlink, hy⟩ := mgrStep_eq_some_elim hstep
      by_cases hye : y = e
      · subst hye
        have hmr : mgrRef r = some y := by
          unfold mgrRef
          rw [hlink]
          show (if y = "" then none else some y) = some y
          rw [if_neg hy]
        exact hnotgt r (List.mem_of_find?_eq_some hr) hmr
      · exact ih y hye h

/-! ## Elimination lemmas for successful staff operations -/

theorem findIdx?_id_facts {l : List BusinessAnalyst} {id : String} {i : Nat}
    (h : l.findIdx? (fun ba => ba.id = id) = some i) :
    ∃ hlt : i < l.length, (l.get ⟨i, hlt⟩).id = id := by
  rw [List.findIdx?_eq_some_iff_findIdx_eq] at h
  obtain ⟨hlt, hfi⟩ := h
  subst hfi
  refine ⟨hlt, ?_⟩
  have h0 := @List.findIdx_getElem _ (fun ba => decide (ba.id = id)) l hlt
  simpa using h0

theorem updateBA_ok_elim {l : List BusinessAnalyst} {id : String}
    {d : UpdateBARequest} {now : Int} {l' : List BusinessAnalyst}
    {ba' : BusinessAnalyst}
    (h : updateBA l id d now = .ok (some (l', ba'))) :
    ∃ i, l.findIdx? (fun ba => ba.id = id) = some i ∧
      validateBAData (mergedBARequest (l.get! i) d) = [] ∧
      wouldCreateCircularReference l id (payloadMgr d) = false ∧
      ba' = applyBASpread (l.get! i) d now ∧
      l' = l.set i ba' := by
  cases hidx : l.findIdx? (fun ba => ba.id = id) with
  | none => rw [updateBA, hidx] at h; exact absurd h (by simp)
  | some i =>
    simp only [updateBA, hidx] at h
    split_ifs at h with h1 h2 h3
    rw [Except.ok.injEq, Option.some.injEq, Prod.mk.injEq] at h
    obtain ⟨hL, hR⟩ := h
    exact ⟨i, rfl, not_ne_iff.mp h1, Bool.eq_false_iff.mpr h3, hR.symm,
      by rw [← hL, hR]⟩

theorem createBA_ok_elim {l : List BusinessAnalyst} {d : CreateBARequest}
    {freshId : String} {now : Int} {l' : List BusinessAnalyst}
    {nba : BusinessAnalyst}
    (h : createBA l d freshId now = .ok (l', nba)) :
    validateBAData d = [] ∧
    (jsTruthy d.lineManagerId = true →
      (getById l (d.lineManagerId.getD "")).isSome) ∧
    nba.id = freshId ∧
    nba.lineManagerId = d.lineManagerId ∧
    l' = l ++ [nba] := by
  simp only [createBA] at h
  split_ifs at h with h1 h2
  rw [Except.ok.injEq, Prod.mk.injEq] at h
  obtain ⟨hL, hR⟩ := h
  refine ⟨not_ne_iff.mp h1, ?_, ?_, ?_, ?_⟩
  · intro htr
    by_contra hnone
    exact h2 ⟨htr, by simpa using hnone⟩
  · rw [← hR]
  · rw [← hR]
  · rw [← hL, hR]

/-! ## Preservation of the hierarchy invariant -/

theorem mgrRef_congr {b1 b2 : BusinessAnalyst}
    (h : b1.lineManagerId = b2.lineManagerId) : mgrRef b1 = mgrRef b2 := by
  unfold mgrRef
  rw [h]

theorem GoodIds_update {l : List BusinessAnalyst} {id : String}
    {d : UpdateBARequest} {now : Int} {l' : List BusinessAnalyst}
    {ba' : BusinessAnalyst} (hg : GoodIds l)
    (h : updateBA l id d now = .ok (some (l', ba'))) : GoodIds l' := by
  obtain ⟨i, hidx, -, -, hba', hl'⟩ := updateBA_ok_elim h
  obtain ⟨hlt, hid⟩ := findIdx?_id_facts hidx
  have hba'id : ba'.id = (l.get ⟨i, hlt⟩).id := by
    rw [hba', get!_of_lt hlt]; rfl
  subst hl'
  refine ⟨?_, ?_⟩
  · rw [baIds_set hlt hba'id]
    exact hg.1
  · intro b hb
    rcases mem_set_cases hg.1 hlt hba'id hb with rfl | ⟨hbl, -⟩
    · rw [hba'id]
      exact hg.2 _ (List.get_mem l i hlt)
    · exact hg.2 b hbl

theorem GoodIds_create {l : List BusinessAnalyst} {d : CreateBARequest}
    {freshId : String} {now : Int} {l' : List BusinessAnalyst}
    {nba : BusinessAnalyst} (hg : GoodIds l)
    (hf1 : freshId ≠ "") (hf2 : freshId ∉ baIds l)
    (h : createBA l d freshId now = .ok (l', nba)) : GoodIds l' := by
  obtain ⟨-, -, hid, -, hl'⟩ := createBA_ok_elim h
  subst hl'
  constructor
  · show (baIds (l ++ [nba])).Nodup
    unfold baIds
    rw [List.map_append]
    rw [List.nodup_append]
    refine ⟨hg.1, by simp, ?_⟩
    intro x hx hy
    simp only [List.map_cons, List.map_nil, List.mem_singleton] at hy
    rw [hy, hid] at hx
    exact hf2 hx
  · intro b hb
    rcases List.mem_append.mp hb with hbl | hbn
    · exact hg.2 b hbl
    · obtain rfl : b = nba := by simpa using hbn
      rw [hid]
      exact hf1

/-- A successful `update` preserves the absence of proper manager cycles:
the only new edge is the updated record's manager link, the circular check
rules out every new cycle of length at least two through it, and a direct
self-reference (which the check lets through) is not a proper cycle. -/
theorem NoProperCycle_update {l : List BusinessAnalyst} {id : String}
    {d : UpdateBARequest} {now : Int} {l' : List BusinessAnalyst}
    {ba' : BusinessAnalyst}
    (hg : GoodIds l) (hnpc : NoProperCycle l)
    (h : updateBA l id d now = .ok (some (l', ba'))) :
    NoProperCycle l' := by
  obtain ⟨i, hidx, hval, hwccr, hba', hl'⟩ := updateBA_ok_elim h
  obtain ⟨hlt, hid⟩ := findIdx?_id_facts hidx
  have hnd := hg.1
  have hamem : l.get ⟨i, hlt⟩ ∈ l := List.get_mem l i hlt
  have hba'id : ba'.id = (l.get ⟨i, hlt⟩).id := by
    rw [hba', get!_of_lt hlt]; rfl
  have hba'id2 : ba'.id = id := by rw [hba'id, hid]
  subst hl'
  have hdiff : ∀ x, x ≠ id → mgrStep (l.set i ba') x = mgrStep l x := by
    intro x hx
    exact mgrStep_set_ne hnd hlt hba'id (by rw [hba'id2]; exact hx)
  have hself : mgrStep (l.set i ba') id = mgrRef ba' := by
    have hs := mgrStep_set_self hnd hlt hba'id
    rw [hba'id2] at hs
    exact hs
  have hstepl_id : mgrStep l id = mgrRef (l.get ⟨i, hlt⟩) := by
    unfold mgrStep
    rw [← hid, getById_mem_nodup hnd hamem, Option.some_bind]
  have hlm : ba'.lineManagerId =
      d.lineManagerId.getD (l.get ⟨i, hlt⟩).lineManagerId := by
    rw [hba', get!_of_lt hlt]; rfl
  have hnd' : (baIds (l.set i ba')).Nodup := by
    rw [baIds_set hlt hba'id]; exact hnd
  intro b hb m hm hmne hchain
  cases href : mgrRef ba' with
  | none =>
    -- the updated record has no outgoing link: chains die at `id`
    rcases mem_set_cases hnd hlt hba'id hb with rfl | ⟨hbl, hbne⟩
    · rw [href] at hm
      cases hm
    · obtain ⟨n, hn⟩ := hchain
      have hbneid : b.id ≠ id := by rw [← hba'id2]; exact hbne
      rcases mgrIter_decompose hdiff n m b.id hn with hold | ⟨k, hk, h1, h2⟩
      · exact hnpc b hbl m hm hmne ⟨n, hold⟩
      · cases hnk : (n - k) with
        | zero =>
          rw [hnk, mgrIter_zero] at h2
          exact hbneid (by injection h2 with h3; exact h3.symm)
        | succ j =>
          rw [hnk, mgrIter_succ, hself, href] at h2
          exact absurd h2 (by simp)
  | some w =>
    cases hd : d.lineManagerId with
    | none =>
      -- absent key: the manager graph is unchanged
      have hrefeq : mgrRef ba' = mgrRef (l.get ⟨i, hlt⟩) :=
        mgrRef_congr (by rw [hlm, hd]; rfl)
      have hall : ∀ x, mgrStep (l.set i ba') x = mgrStep l x := by
        intro x
        by_cases hx : x = id
        · subst hx
          rw [hself, hrefeq, hstepl_id]
        · exact hdiff x hx
      obtain ⟨n, hn⟩ := hchain
      rw [mgrIter_congr hall] at hn
      rcases mem_set_cases hnd hlt hba'id hb with rfl | ⟨hbl, hbne⟩
      · refine hnpc _ hamem m ?_ ?_ ⟨n, ?_⟩
        · rw [← hrefeq]; exact hm
        · rw [← hba'id]; exact hmne
        · rw [← hba'id]; exact hn
      · exact hnpc b hbl m hm hmne ⟨n, hn⟩
    | some v =>
      have hlm2 : ba'.lineManagerId = v := by rw [hlm, hd]; rfl
      cases v with
      | none =>
        exact absurd href (by unfold mgrRef; rw [hlm2]; simp)
      | some s =>
        have hws : (if s = "" then none else some s) = some w := by
          have hrefs := href
          unfold mgrRef at hrefs
          rw [hlm2] at hrefs
          exact hrefs
        by_cases hse : s = ""
        · rw [if_pos hse] at hws
          cases hws
        · rw [if_neg hse] at hws
          obtain rfl : s = w := by injection hws
          have hpm : payloadMgr d = some s := by
            unfold payloadMgr
            rw [hd]; rfl
          by_cases hsid : s = id
          · -- a direct self-reference: the new edge loops at `id`
            have hrefid : mgrRef ba' = some id := by rw [href, hsid]
            rcases mem_set_cases hnd hlt hba'id hb with rfl | ⟨hbl, hbne⟩
            · rw [hrefid] at hm
              have hmid : id = m := by injection hm
              exact hmne (by rw [← hmid, hba'id2])
            · obtain ⟨n, hn⟩ := hchain
              have hbneid : b.id ≠ id := by rw [← hba'id2]; exact hbne
              rcases mgrIter_decompose hdiff n m b.id hn with hold | ⟨k, hk, h1, h2⟩
              · exact hnpc b hbl m hm hmne ⟨n, hold⟩
              · have hloop : mgrStep (l.set i ba') id = some id := by
                  rw [hself, hrefid]
                rw [mgrIter_selfloop hloop (n - k)] at h2
                exact hbneid (by injection h2 with h3; exact h3.symm)
          · -- a genuine reassignment: the circular check ran and said no
            have hnochain : ¬ InChain l s id := by
              intro hc
              have htrue := (wccr_eq_true_iff l hse hsid).mpr hc
              rw [hpm] at hwccr
              rw [hwccr] at htrue
              cases htrue
            have hrefs : mgrRef ba' = some s := href
            rcases mem_set_cases hnd hlt hba'id hb with rfl | ⟨hbl, hbne⟩
            · rw [hrefs] at hm
              obtain rfl : s = m := by injection hm
              obtain ⟨n, hn⟩ := hchain
              rw [hba'id2] at hn
              rcases mgrIter_decompose hdiff n s id hn with hold | ⟨k, hk, h1, h2⟩
              · exact hnochain ⟨n, hold⟩
              · exact hnochain ⟨k, h1⟩
            · obtain ⟨n, hn⟩ := hchain
              have hbneid : b.id ≠ id := by rw [← hba'id2]; exact hbne
              rcases mgrIter_decompose hdiff n m b.id hn with hold | ⟨k, hk, h1, h2⟩
              · exact hnpc b hbl m hm hmne ⟨n, hold⟩
              · cases hnk : (n - k) with
                | zero =>
                  rw [hnk, mgrIter_zero] at h2
                  exact hbneid (by injection h2 with h3; exact h3.symm)
                | succ j =>
                  rw [hnk, mgrIter_succ, hself, hrefs, Option.some_bind] at h2
                  -- h2 : chain of length j from s to b.id in the new graph
                  have hbstep : mgrStep (l.set i ba') b.id = some m := by
                    unfold mgrStep
                    rw [getById_mem_nodup hnd' hb, Option.some_bind]
                    exact hm
                  have hex : InChain l m id := ⟨k, h1⟩
                  have hprefix : mgrIter (l.set i ba') (Nat.find hex) m = some id :=
                    mgrIter_transfer hdiff (Nat.find hex) m id (Nat.find_spec hex)
                      (fun k2 hk2 => Nat.find_min hex hk2)
                  have hcomb1 : mgrIter (l.set i ba') (j + 1) s = some m := by
                    rw [mgrIter_succ_far, h2, Option.some_bind]
                    exact hbstep
                  have hcomb2 : mgrIter (l.set i ba') ((j + 1) + Nat.find hex) s
                      = some id := by
                    rw [mgrIter_add, hcomb1, Option.some_bind]
                    exact hprefix
                  rcases mgrIter_decompose hdiff _ s id hcomb2 with hold2 |
                    ⟨k2, hk2, h12, h22⟩
                  · exact hnochain ⟨_, hold2⟩
                  · exact hnochain ⟨k2, h12⟩

/-- A successful `create` preserves the absence of proper manager cycles:
the fresh record's manager is an already stored id, and with a fresh id no
stored link points at the new record. -/
theorem NoProperCycle_create {l : List BusinessAnalyst} {d : CreateBARequest}
    {freshId : String} {now : Int} {l' : List BusinessAnalyst}
    {nba : BusinessAnalyst}
    (hnpc : NoProperCycle l)
    (hf2 : freshId ∉ baIds l)
    (hf3 : ∀ ba ∈ l, mgrRef ba ≠ some freshId)
    (h : createBA l d freshId now = .ok (l', nba)) :
    NoProperCycle l' := by
  obtain ⟨-, hmgrok, hid, hlm, hl'⟩ := createBA_ok_elim h
  subst hl'
  have hdiff : ∀ x, x ≠ freshId → mgrStep (l ++ [nba]) x = mgrStep l x := by
    intro x hx
    exact mgrStep_append_ne (by rw [hid]; exact hx)
  have hnoreach : ∀ n m, m ≠ freshId → mgrIter l n m ≠ some freshId :=
    fun n m => chain_no_entry hf3 n m
  intro b hb m hm hmne hchain
  rcases List.mem_append.mp hb with hbl | hbn
  · have hmne2 : m ≠ freshId := fun he => hf3 b hbl (he ▸ hm)
    obtain ⟨n, hn⟩ := hchain
    rcases mgrIter_decompose hdiff n m b.id hn with hold | ⟨k, hk, h1, h2⟩
    · exact hnpc b hbl m hm hmne ⟨n, hold⟩
    · exact hnoreach k m hmne2 h1
  · obtain rfl : b = nba := by simpa using hbn
    -- the new record's manager is a stored id, hence not the fresh one
    have hmgr : mgrRef b = some m := hm
    obtain ⟨s, hlms, hsne, hsm⟩ : ∃ s, b.lineManagerId = some s ∧ s ≠ "" ∧ s = m := by
      unfold mgrRef at hmgr
      cases hlmv : b.lineManagerId with
      | none => rw [hlmv] at hmgr; cases hmgr
      | some s =>
        rw [hlmv] at hmgr
        have hmgr' : (if s = "" then none else some s) = some m := hmgr
        by_cases hse : s = ""
        · rw [if_pos hse] at hmgr'; cases hmgr'
        · rw [if_neg hse] at hmgr'
          exact ⟨s, rfl, hse, by injection hmgr'⟩
    subst hsm
    have htr : jsTruthy d.lineManagerId = true := by
      rw [← hlm, hlms]
      simp [jsTruthy, hsne]
    have hsome := hmgrok htr
    have hmem : s ∈ baIds l := by
      rw [← hlm, hlms] at hsome
      obtain ⟨r, hr⟩ := Option.isSome_iff_exists.mp hsome
      have hrid : r.id = s := by
        have := List.find?_some hr
        simpa using this
      exact hrid ▸ List.mem_map_of_mem (fun ba => ba.id) (List.mem_of_find?_eq_some hr)
    have hmne3 : s ≠ freshId := fun he => hf2 (he ▸ hmem)
    obtain ⟨n, hn⟩ := hchain
    rw [hid] at hn
    rcases mgrIter_decompose hdiff n s freshId hn with hold | ⟨k, hk, h1, h2⟩
    · exact hnoreach n s hmne3 hold
    · exact hnoreach k s hmne3 h1

/-- One service call preserves the id discipline and the cycle freedom. -/
theorem BAOp_invariant (l : List BusinessAnalyst) (op : BAOp)
    (hg : GoodIds l) (hnpc : NoProperCycle l)
    (hfr : match op with
      | .create _ freshId _ =>
        freshId ≠ "" ∧ freshId ∉ baIds l ∧ ∀ ba ∈ l, mgrRef ba ≠ some freshId
      | .update _ _ _ => True) :
    GoodIds (applyBAOp l op) ∧ NoProperCycle (applyBAOp l op) := by
  cases op with
  | create d freshId now =>
    obtain ⟨hf1, hf2, hf3⟩ := hfr
    simp only [applyBAOp]
    cases hc : createBA l d freshId now with
    | error e => exact ⟨hg, hnpc⟩
    | ok p =>
      obtain ⟨l2, nba⟩ := p
      exact ⟨GoodIds_create hg hf1 hf2 hc, NoProperCycle_create hnpc hf2 hf3 hc⟩
  | update id d now =>
    simp only [applyBAOp]
    cases hu : updateBA l id d now with
    | error e => exact ⟨hg, hnpc⟩
    | ok o =>
      cases o with
      | none => exact ⟨hg, hnpc⟩
      | some p =>
        obtain ⟨l2, ba'⟩ := p
        exact ⟨GoodIds_update hg hu, NoProperCycle_update hg hnpc hu⟩

/-- A whole sequence of service calls preserves the invariant. -/
theorem BAOps_invariant (ops : List BAOp) (l : List BusinessAnalyst)
    (hg : GoodIds l) (hnpc : NoProperCycle l) (hfr : FreshOps l ops) :
    GoodIds (applyBAOps l ops) ∧ NoProperCycle (applyBAOps l ops) := by
  induction ops generalizing l with
  | nil => exact ⟨hg, hnpc⟩
  | cons op ops ih =>
    obtain ⟨hop, hrest⟩ := hfr
    have hstep := BAOp_invariant l op hg hnpc hop
    exact ih (applyBAOp l op) hstep.1 hstep.2 hrest

/-- C1 (amended): `update` rejects, with the error 'Cannot create circular
reporting relationship', every change of `lineManagerId` to a (nonempty)
manager id other than the analyst's own whose transitive manager chain
contains the analyst, provided the record exists and the merged record
validates; setting an analyst's manager to its own id is accepted (see the
counterexample), so what every sequence of create/update operations
preserves — starting from well-formed data with fresh generated ids — is
that no analyst is its own manager through a chain of length at least two,
together with distinct nonempty ids. -/
theorem C1_circular_rejection_and_invariant :
    (∀ (l : List BusinessAnalyst) (id : String) (d : UpdateBARequest)
       (now : Int) (i : Nat) (m : String),
       l.findIdx? (fun ba => ba.id = id) = some i →
       validateBAData (mergedBARequest (l.get! i) d) = [] →
       payloadMgr d = some m → m ≠ "" → m ≠ id → InChain l m id →
       updateBA l id d now =
         .error "Cannot create circular reporting relationship") ∧
    (∀ (ops : List BAOp) (l : List BusinessAnalyst),
       GoodIds l → NoProperCycle l → FreshOps l ops →
       GoodIds (applyBAOps l ops) ∧ NoProperCycle (applyBAOps l ops)) := by
  constructor
  · intro l id d now i m hidx hval hpm hm hne hchain
    have hgb : (getById l m).isSome := by
      obtain ⟨n, hn⟩ := hchain
      cases n with
      | zero =>
        rw [mgrIter_zero] at hn
        exact absurd (by injection hn) hne
      | succ k =>
        have hn1 : (mgrIter l 1 m).isSome :=
          mgrIter_isSome_of_le l (by omega) hn
        rw [mgrIter_succ] at hn1
        cases hst : mgrStep l m with
        | none => rw [hst] at hn1; simp at hn1
        | some y =>
          obtain ⟨r, hr, -, -⟩ := mgrStep_eq_some_elim hst
          rw [hr]
          rfl
    have hwccr : wouldCreateCircularReference l id (payloadMgr d) = true := by
      rw [hpm]
      exact (wccr_eq_true_iff l hm hne).mpr hchain
    simp only [updateBA, hidx]
    rw [if_neg (not_ne_iff.mpr hval)]
    rw [if_neg (fun hcon => ?_), if_pos hwccr]
    obtain ⟨-, -, hno⟩ := hcon
    rw [hpm] at hno
    simp only [Option.getD_some] at hno
    rw [Option.isNone_iff_eq_none] at hno
    rw [hno] at hgb
    cases hgb
  · intro ops l hg hnpc hfr
    exact BAOps_invariant ops l hg hnpc hfr

/-- Witness for C1 at concrete inputs: moving `b` under `a` is rejected as
circular, and a concrete create sequence from the empty store keeps the
invariant. -/
theorem C1_circular_rejection_and_invariant_witness :
    updateBA C1wStore "b" (mkMgrPayload (some (some "a"))) 3 =
      .error "Cannot create circular reporting relationship" ∧
    (GoodIds (applyBAOps [] [.create (mkBAReq none) "x1" 0]) ∧
      NoProperCycle (applyBAOps [] [.create (mkBAReq none) "x1" 0])) := by
  have h := C1_circular_rejection_and_invariant
  constructor
  · exact h.1 C1wStore "b" (mkMgrPayload (some (some "a"))) 3 0 "a"
      (by decide) (by decide) rfl (by decide) (by decide) ⟨1, by decide⟩
  · exact h.2 [.create (mkBAReq none) "x1" 0] []
      ⟨List.nodup_nil, fun ba hba => absurd hba (List.not_mem_nil ba)⟩
      (fun ba hba => absurd hba (List.not_mem_nil ba))
      ⟨⟨by decide, by decide, fun ba hba => absurd hba (List.not_mem_nil ba)⟩,
        trivial⟩

/-! ## Round-service lemmas -/

theorem createRound_ok_elim {rounds : List TalentRound} {d : CreateRoundRequest}
    {freshId : String} {now today : Int} {rounds' : List TalentRound}
    {r : TalentRound}
    (h : createRound rounds d freshId now today = .ok (rounds', r)) :
    validateRoundData d today = [] ∧
    (rounds.find? fun rd => rd.quarter = d.quarter ∧ rd.year = d.year) = none ∧
    r.quarter = jsTrim d.quarter ∧ r.year = d.year ∧ r.status = .draft ∧
    r.id = freshId ∧ rounds' = rounds ++ [r] := by
  simp only [createRound] at h
  split_ifs at h with h1 h2
  rw [Except.ok.injEq, Prod.mk.injEq] at h
  obtain ⟨hL, hR⟩ := h
  refine ⟨not_ne_iff.mp h1, Option.not_isSome_iff_eq_none.mp h2, ?_, ?_, ?_, ?_, ?_⟩
  · rw [← hR]
  · rw [← hR]
  · rw [← hR]
  · rw [← hR]
  · rw [← hL, hR]

/-- C9 (amended): `create` throws the duplicate error whenever a stored
round carries the raw request quarter and year (and validation passed);
every error leaves the store unchanged; and for requests whose quarter is
already trimmed — as is every quarter stored by `create` itself — the
no-duplicate-pair invariant is preserved by each create and hence by any
sequence of create calls. An untrimmed request quarter evades the duplicate
check while the trimmed form is stored, so the unqualified claim fails (see
the counterexample). -/
theorem C9_round_create_uniqueness :
    (∀ (rounds : List TalentRound) (d : CreateRoundRequest) (freshId : String)
       (now today : Int),
      validateRoundData d today = [] →
      (rounds.find? fun r => r.quarter = d.quarter ∧ r.year = d.year).isSome →
      createRound rounds d freshId now today =
        .error "A round already exists for this quarter and year") ∧
    (∀ (rounds : List TalentRound) (d : CreateRoundRequest) (freshId : String)
       (now today : Int) (e : String),
      createRound rounds d freshId now today = .error e →
      applyRoundOp rounds (.create d freshId now today) = rounds) ∧
    (∀ (rounds : List TalentRound) (d : CreateRoundRequest) (freshId : String)
       (now today : Int) (rounds' : List TalentRound) (r : TalentRound),
      jsTrim d.quarter = d.quarter →
      UniqueQuarterYear rounds →
      createRound rounds d freshId now today = .ok (rounds', r) →
      UniqueQuarterYear rounds') ∧
    (∀ (ops : List RoundOp) (rounds : List TalentRound),
      (∀ op ∈ ops, match op with
        | .create d _ _ _ => jsTrim d.quarter = d.quarter
        | _ => False) →
      UniqueQuarterYear rounds →
      UniqueQuarterYear (applyRoundOps rounds ops)) := by
  have hsingle : ∀ (rounds : List TalentRound) (d : CreateRoundRequest)
      (freshId : String) (now today : Int) (rounds' : List TalentRound)
      (r : TalentRound),
      jsTrim d.quarter = d.quarter →
      UniqueQuarterYear rounds →
      createRound rounds d freshId now today = .ok (rounds', r) →
      UniqueQuarterYear rounds' := by
    intro rounds d freshId now today rounds' r htrim huniq h
    obtain ⟨-, hdup, hq, hy, -, -, hl'⟩ := createRound_ok_elim h
    subst hl'
    unfold UniqueQuarterYear
    rw [List.pairwise_append]
    refine ⟨huniq, List.pairwise_singleton _ _, ?_⟩
    intro a ha b hb
    obtain rfl : b = r := by simpa using hb
    rw [List.find?_eq_none] at hdup
    have := hdup a ha
    simp only [decide_eq_true_eq] at this
    intro ⟨hq2, hy2⟩
    exact this ⟨by rw [hq, htrim] at hq2; exact hq2, by rw [hy] at hy2; exact hy2⟩
  refine ⟨?_, ?_, hsingle, ?_⟩
  · intro rounds d freshId now today hval hdup
    simp only [createRound]
    rw [if_neg (not_ne_iff.mpr hval), if_pos hdup]
  · intro rounds d freshId now today e h
    simp only [applyRoundOp, h]
  · intro ops
    induction ops with
    | nil => intro rounds _ h; exact h
    | cons op ops ih =>
      intro rounds hall huniq
      have hop := hall op (List.mem_cons_self op ops)
      have hrest : ∀ op2 ∈ ops, match op2 with
          | RoundOp.create d _ _ _ => jsTrim d.quarter = d.quarter
          | _ => False :=
        fun op2 hop2 => hall op2 (List.mem_cons_of_mem op hop2)
      refine ih (applyRoundOp rounds op) hrest ?_
      cases op with
      | create d freshId now today =>
        simp only [applyRoundOp]
        cases hc : createRound rounds d freshId now today with
        | error e => exact huniq
        | ok p =>
          obtain ⟨rounds2, r⟩ := p
          exact hsingle rounds d freshId now today rounds2 r hop huniq hc
      | update id d today => exact absurd hop (by simp)
      | activate id => exact absurd hop (by simp)
      | complete id bas reviews now => exact absurd hop (by simp)

/-- Witness for C9 at concrete inputs: a duplicate quarter/year create is
rejected and a trimmed create sequence keeps the invariant. -/
theorem C9_round_create_uniqueness_witness :
    createRound [mkRound "r1" "Q1" 2025 .draft] C9exReq1 "r2" 1 0 =
      .error "A round already exists for this quarter and year" ∧
    UniqueQuarterYear (applyRoundOps [] [.create C9exReq1 "r2" 1 0]) := by
  have h := C9_round_create_uniqueness
  constructor
  · exact h.1 [mkRound "r1" "Q1" 2025 .draft] C9exReq1 "r2" 1 0 (by decide) (by decide)
  · refine h.2.2.2 [.create C9exReq1 "r2" 1 0] [] ?_ List.Pairwise.nil
    intro op hop
    rw [List.mem_singleton] at hop
    subst hop
    decide

/-- C4 (amended): for a stored round id the summary has `totalBAs` the
number of active analysts, `completedReviews` the number of complete
reviews recorded for the round, `pendingReviews` exactly their (integer)
difference — which is negative when complete reviews exist for analysts
that are not active — and `completionPercentage` the half-up rounding of
`100 · completedReviews / totalBAs` (`0` when there are no active
analysts), a value that is at least 0 but can exceed 100; an unknown round
id throws 'Round not found'. -/
theorem C4_round_summary_fields (rounds : List TalentRound)
    (bas : List BusinessAnalyst) (reviews : List Review) (id : String) :
    ((rounds.find? fun r => r.id = id) = none →
      getRoundSummary rounds bas reviews id = .error "Round not found") ∧
    ((rounds.find? fun r => r.id = id).isSome →
      (getRoundSummary rounds bas reviews id).isOk = true) ∧
    (∀ s, getRoundSummary rounds bas reviews id = .ok s →
      s.totalBAs = (bas.filter (·.isActive)).length ∧
      s.completedReviews =
        ((reviews.filter fun r => r.roundId = id).filter (·.isComplete)).length ∧
      s.pendingReviews = (s.totalBAs : Int) - (s.completedReviews : Int) ∧
      s.completionPercentage =
        (if s.totalBAs > 0 then jsRoundPct s.completedReviews s.totalBAs else 0) ∧
      (s.totalBAs = 0 → s.completionPercentage = 0)) := by
  refine ⟨?_, ?_, ?_⟩
  · intro hnone
    simp only [getRoundSummary, hnone]
  · intro hsome
    obtain ⟨r, hr⟩ := Option.isSome_iff_exists.mp hsome
    simp only [getRoundSummary, hr]
    rfl
  · intro s hs
    cases hfind : rounds.find? (fun r => r.id = id) with
    | none =>
      rw [getRoundSummary, hfind] at hs
      cases hs
    | some r =>
      simp only [getRoundSummary, hfind, Except.ok.injEq] at hs
      subst hs
      refine ⟨rfl, rfl, rfl, rfl, fun h0 => ?_⟩
      have h0' : (bas.filter (·.isActive)).length = 0 := h0
      show (if (bas.filter (·.isActive)).length > 0 then _ else 0) = 0
      rw [if_neg (by omega)]

/-- Witness for C4 at the concrete store of the counterexample: one active
analyst, two complete reviews for the round. -/
theorem C4_round_summary_fields_witness :
    getRoundSummary C24rounds C24bas C24reviews "zzz" = .error "Round not found" ∧
    ∃ s, getRoundSummary C24rounds C24bas C24reviews "r1" = .ok s ∧
      s.totalBAs = 1 ∧ s.completedReviews = 2 ∧ s.pendingReviews = -1 ∧
      s.completionPercentage = 200 := by
  have h := C4_round_summary_fields C24rounds C24bas C24reviews "r1"
  refine ⟨(C4_round_summary_fields C24rounds C24bas C24reviews "zzz").1 (by decide), ?_⟩
  cases hs : getRoundSummary C24rounds C24bas C24reviews "r1" with
  | error e =>
    have := h.2.1 (by decide)
    rw [hs] at this
    cases this
  | ok s =>
    obtain ⟨h1, h2, h3, h4, -⟩ := h.2.2 s hs
    refine ⟨s, rfl, h1.trans (by decide), h2.trans (by decide), ?_, ?_⟩
    · rw [h3, h1, h2]
      decide
    · rw [h4, h1, h2]
      decide

/-! ## Review-service lemmas -/

theorem pairwise_set_congr {α : Type _} {R : α → α → Prop} {l : List α} {i : Nat}
    {u : α} (hlt : i < l.length)
    (hco : ∀ x, (R (l.get ⟨i, hlt⟩) x → R u x) ∧ (R x (l.get ⟨i, hlt⟩) → R x u))
    (hp : List.Pairwise R l) : List.Pairwise R (l.set i u) := by
  induction l generalizing i with
  | nil => exact hp
  | cons c t ih =>
    rcases List.pairwise_cons.mp hp with ⟨hc, ht⟩
    cases i with
    | zero =>
      show List.Pairwise R (u :: t)
      refine List.pairwise_cons.mpr ⟨?_, ht⟩
      intro x hx
      exact (hco x).1 (hc x hx)
    | succ j =>
      have hjt : j < t.length := by simpa using hlt
      show List.Pairwise R (c :: t.set j u)
      refine List.pairwise_cons.mpr ⟨?_, ih hjt (fun x => hco x) ht⟩
      intro x hx
      rcases List.mem_or_eq_of_mem_set hx with hxt | rfl
      · exact hc x hxt
      · exact (hco c).2 (hc _ (List.get_mem t j hjt))

theorem createReview_ok_elim {reviews : List Review} {d : CreateReviewRequest}
    {freshId : String} {now : Int} {l' : List Review} {r : Review}
    (h : createReview reviews d freshId now = .ok (l', r)) :
    getByBAAndRound reviews d.businessAnalystId d.roundId = none ∧
    r.businessAnalystId = d.businessAnalystId ∧ r.roundId = d.roundId ∧
    l' = reviews ++ [r] := by
  simp only [createReview] at h
  split_ifs at h with h1 h2 h3 <;>
  · rw [Except.ok.injEq, Prod.mk.injEq] at h
    obtain ⟨hL, hR⟩ := h
    refine ⟨Option.not_isSome_iff_eq_none.mp h2, ?_, ?_, ?_⟩
    · rw [← hR]
    · rw [← hR]
    · rw [← hL, hR]

theorem updateReview_ok_elim {reviews : List Review} {id : String}
    {d : UpdateReviewRequest} {now : Int} {l' : List Review} {r' : Review}
    (h : updateReview reviews id d now = .ok (some (l', r'))) :
    ∃ i, reviews.findIdx? (fun r => r.id = id) = some i ∧
      r'.businessAnalystId =
        d.businessAnalystId.getD (reviews.get! i).businessAnalystId ∧
      r'.roundId = d.roundId.getD (reviews.get! i).roundId ∧
      l' = reviews.set i r' := by
  cases hidx : reviews.findIdx? (fun r => r.id = id) with
  | none => rw [updateReview, hidx] at h; exact absurd h (by simp)
  | some i =>
    simp only [updateReview, hidx] at h
    split_ifs at h with h1 h2 <;>
    · rw [Except.ok.injEq, Option.some.injEq, Prod.mk.injEq] at h
      obtain ⟨hL, hR⟩ := h
      refine ⟨i, rfl, ?_, ?_, ?_⟩
      · rw [← hR]
      · rw [← hR]
      · rw [← hL, hR]

/-- C6 (amended): `create` rejects a request for an already reviewed
`(businessAnalystId, roundId)` pair (when validation passes) and preserves
the at-most-one-review-per-pair property; `update` preserves it whenever
the payload leaves both `businessAnalystId` and `roundId` unset. A payload
that sets one of them is spread into the stored record without any
duplicate check and can break the property (see the counterexample). -/
theorem C6_review_pair_uniqueness :
    (∀ (reviews : List Review) (d : CreateReviewRequest) (freshId : String)
       (now : Int),
      validateReviewData d = [] →
      (getByBAAndRound reviews d.businessAnalystId d.roundId).isSome →
      createReview reviews d freshId now =
        .error "Review already exists for this BA and round") ∧
    (∀ (reviews : List Review) (d : CreateReviewRequest) (freshId : String)
       (now : Int) (l' : List Review) (r : Review),
      UniqueReviewPairs reviews →
      createReview reviews d freshId now = .ok (l', r) →
      UniqueReviewPairs l') ∧
    (∀ (reviews : List Review) (id : String) (d : UpdateReviewRequest)
       (now : Int) (l' : List Review) (r' : Review),
      d.businessAnalystId = none → d.roundId = none →
      UniqueReviewPairs reviews →
      updateReview reviews id d now = .ok (some (l', r')) →
      UniqueReviewPairs l') := by
  refine ⟨?_, ?_, ?_⟩
  · intro reviews d freshId now hval hdup
    simp only [createReview]
    rw [if_neg (not_ne_iff.mpr hval), if_pos hdup]
  · intro reviews d freshId now l' r hp h
    obtain ⟨hdup, hba, hround, hl'⟩ := createReview_ok_elim h
    subst hl'
    unfold UniqueReviewPairs
    rw [List.pairwise_append]
    refine ⟨hp, List.pairwise_singleton _ _, ?_⟩
    intro a ha b hb
    obtain rfl : b = r := by simpa using hb
    unfold getByBAAndRound at hdup
    rw [List.find?_eq_none] at hdup
    have hno := hdup a ha
    simp only [decide_eq_true_eq] at hno
    intro ⟨h1, h2⟩
    exact hno ⟨by rw [← hba]; exact h1, by rw [← hround]; exact h2⟩
  · intro reviews id d now l' r' hdba hdr hp h
    obtain ⟨i, hidx, hba, hround, hl'⟩ := updateReview_ok_elim h
    have hlt : i < reviews.length := findIdx?_some_lt hidx
    rw [hdba] at hba
    rw [hdr] at hround
    simp only [Option.getD_none] at hba hround
    rw [get!_of_lt hlt] at hba hround
    subst hl'
    refine pairwise_set_congr hlt (fun x => ⟨?_, ?_⟩) hp
    · intro hx hcon
      exact hx ⟨hba.symm.trans hcon.1, hround.symm.trans hcon.2⟩
    · intro hx hcon
      exact hx ⟨hcon.1.trans hba, hcon.2.trans hround⟩

/-- Witness for C6 at concrete inputs: a duplicate create is rejected; a
create into the empty store and an update that does not touch the pair
both keep the uniqueness property. -/
theorem C6_review_pair_uniqueness_witness :
    createReview C6exReviews (mkReviewReq "a" "r1") "v9" 9 =
      .error "Review already exists for this BA and round" ∧
    (∃ p, createReview ([] : List Review) (mkReviewReq "a" "r1") "v1" 0 = .ok p ∧
      UniqueReviewPairs p.1) ∧
    (∃ q, updateReview C6exReviews "v2" emptyReviewUpdate 9 = .ok (some q) ∧
      UniqueReviewPairs q.1) := by
  have h := C6_review_pair_uniqueness
  have hpair : UniqueReviewPairs C6exReviews := by
    refine List.Pairwise.cons ?_ (List.Pairwise.cons
      (fun z hz => absurd hz (List.not_mem_nil z)) List.Pairwise.nil)
    intro z hz
    rw [List.mem_singleton] at hz
    subst hz
    decide
  refine ⟨h.1 C6exReviews (mkReviewReq "a" "r1") "v9" 9 (by decide) (by decide),
    ?_, ?_⟩
  · have hok : (createReview ([] : List Review) (mkReviewReq "a" "r1") "v1" 0).isOk
        = true := rfl
    cases hc : createReview ([] : List Review) (mkReviewReq "a" "r1") "v1" 0 with
    | error e => rw [hc] at hok; cases hok
    | ok p =>
      exact ⟨p, rfl, h.2.1 [] (mkReviewReq "a" "r1") "v1" 0 p.1 p.2
        List.Pairwise.nil (by rw [← hc])⟩
  · have hok : (match updateReview C6exReviews "v2" emptyReviewUpdate 9 with
        | .ok (some _) => true | _ => false) = true := rfl
    cases hc : updateReview C6exReviews "v2" emptyReviewUpdate 9 with
    | error e => rw [hc] at hok; cases hok
    | ok o =>
      cases o with
      | none => rw [hc] at hok; cases hok
      | some q =>
        exact ⟨q, rfl, h.2.2 C6exReviews "v2" emptyReviewUpdate 9 q.1 q.2
          rfl rfl hpair (by rw [← hc])⟩

/-! ## Round-lifecycle lemmas -/

theorem find?_eq_of_findIdx? {α : Type _} {p : α → Bool} {l : List α} {i : Nat}
    (hidx : l.findIdx? p = some i) :
    ∃ h : i < l.length, l.find? p = some (l.get ⟨i, h⟩) := by
  induction l generalizing i with
  | nil => cases hidx
  | cons c t ih =>
    rw [List.findIdx?_cons] at hidx
    cases hc : p c with
    | true =>
      rw [if_pos hc] at hidx
      obtain rfl : (0 : Nat) = i := Option.some.inj hidx
      refine ⟨by simp, ?_⟩
      rw [List.find?_cons, hc]
      rfl
    | false =>
      rw [if_neg (by simp [hc]), List.findIdx?_succ] at hidx
      obtain ⟨j, hj, hji⟩ := Option.map_eq_some'.mp hidx
      subst hji
      obtain ⟨hjt, hfind⟩ := ih hj
      refine ⟨by simpa using Nat.succ_lt_succ hjt, ?_⟩
      show (c :: t).find? p = _
      rw [List.find?_cons, hc]
      exact hfind

theorem find?_eq_none_of_findIdx?_none {α : Type _} {p : α → Bool} {l : List α}
    (hidx : l.findIdx? p = none) : l.find? p = none := by
  rw [List.findIdx?_eq_none_iff] at hidx
  rw [List.find?_eq_none]
  intro x hx
  simp [hidx x hx]

theorem findIdx?_none_of_find?_none {α : Type _} {p : α → Bool} {l : List α}
    (h : l.find? p = none) : l.findIdx? p = none := by
  rw [List.find?_eq_none] at h
  rw [List.findIdx?_eq_none_iff]
  intro x hx
  simpa using h x hx

theorem findIdx?_of_find? {α : Type _} {p : α → Bool} {l : List α} {r : α}
    (h : l.find? p = some r) :
    ∃ i, l.findIdx? p = some i ∧ ∃ hlt : i < l.length, l.get ⟨i, hlt⟩ = r := by
  cases hidx : l.findIdx? p with
  | none => rw [find?_eq_none_of_findIdx?_none hidx] at h; cases h
  | some i =>
    obtain ⟨hlt, hfind⟩ := find?_eq_of_findIdx? hidx
    rw [h] at hfind
    exact ⟨i, rfl, hlt, (Option.some.inj hfind).symm⟩

theorem findIdx?_get_prop {α : Type _} {p : α → Bool} {l : List α} {i : Nat}
    (h : l.findIdx? p = some i) :
    ∃ hlt : i < l.length, p (l.get ⟨i, hlt⟩) = true := by
  rw [List.findIdx?_eq_some_iff_findIdx_eq] at h
  obtain ⟨hlt, hfi⟩ := h
  subst hfi
  refine ⟨hlt, ?_⟩
  exact @List.findIdx_getElem _ p l hlt

theorem find?_set_of_findIdx? {α : Type _} {p : α → Bool} {l : List α} {i : Nat}
    {u : α} (hidx : l.findIdx? p = some i) (hu : p u = true) :
    (l.set i u).find? p = some u := by
  induction l generalizing i with
  | nil => cases hidx
  | cons c t ih =>
    rw [List.findIdx?_cons] at hidx
    cases hc : p c with
    | true =>
      rw [if_pos hc] at hidx
      obtain rfl : (0 : Nat) = i := Option.some.inj hidx
      show (u :: t).find? p = some u
      rw [List.find?_cons, hu]
    | false =>
      rw [if_neg (by simp [hc]), List.findIdx?_succ] at hidx
      obtain ⟨j, hj, hji⟩ := Option.map_eq_some'.mp hidx
      subst hji
      show (c :: t.set j u).find? p = some u
      rw [List.find?_cons, hc]
      exact ih hj

theorem find?_set_same_pred {α : Type _} {p : α → Bool} {l : List α} {i : Nat}
    {u : α} (hlt : i < l.length) (hkey : p u = p (l.get ⟨i, hlt⟩)) :
    (l.set i u).find? p = l.find? p ∨
    ((l.set i u).find? p = some u ∧ l.find? p = some (l.get ⟨i, hlt⟩)) := by
  induction l generalizing i with
  | nil => exact absurd hlt (Nat.not_lt_zero i)
  | cons c t ih =>
    cases i with
    | zero =>
      have hkey0 : p u = p c := hkey
      show ((u :: t).find? p = (c :: t).find? p) ∨
        ((u :: t).find? p = some u ∧ (c :: t).find? p = some c)
      rw [List.find?_cons, List.find?_cons]
      cases hc : p c with
      | false => rw [hkey0, hc]; exact Or.inl rfl
      | true => rw [hkey0, hc]; exact Or.inr ⟨rfl, rfl⟩
    | succ j =>
      have hjt : j < t.length := by simpa using hlt
      have hkey' : p u = p (t.get ⟨j, hjt⟩) := hkey
      show ((c :: t.set j u).find? p = (c :: t).find? p) ∨
        ((c :: t.set j u).find? p = some u ∧
         (c :: t).find? p = some (t.get ⟨j, hjt⟩))
      rw [List.find?_cons, List.find?_cons]
      cases hc : p c with
      | true => exact Or.inl rfl
      | false => exact ih hjt hkey'

theorem activateRound_ok_elim {rounds : List TalentRound} {id : String}
    {l' : List TalentRound} {r' : TalentRound}
    (h : activateRound rounds id = .ok (some (l', r'))) :
    ∃ i, rounds.findIdx? (fun r => r.id = id) = some i ∧
      (rounds.get! i).status = .draft ∧
      r' = { rounds.get! i with status := RoundStatus.active } ∧
      l' = rounds.set i r' := by
  cases hidx : rounds.findIdx? (fun r => r.id = id) with
  | none => rw [activateRound, hidx] at h; exact absurd h (by simp)
  | some i =>
    simp only [activateRound, hidx] at h
    split_ifs at h with h1
    rw [Except.ok.injEq, Option.some.injEq, Prod.mk.injEq] at h
    obtain ⟨hL, hR⟩ := h
    exact ⟨i, rfl, not_ne_iff.mp h1, hR.symm, by rw [← hL, hR]⟩

theorem updRound_ok_elim {rounds : List TalentRound} {id : String}
    {d : UpdateRoundRequest} {today : Int} {l' : List TalentRound}
    {r' : TalentRound}
    (h : updateRound rounds id d today = .ok (some (l', r'))) :
    ∃ i, rounds.findIdx? (fun r => r.id = id) = some i ∧
      ¬ (rounds.get! i).status = .completed ∧
      r'.status = (rounds.get! i).status ∧ r'.id = (rounds.get! i).id ∧
      l' = rounds.set i r' := by
  cases hidx : rounds.findIdx? (fun r => r.id = id) with
  | none => rw [updateRound, hidx] at h; exact absurd h (by simp)
  | some i =>
    simp only [updateRound, hidx] at h
    split_ifs at h with h1 h2
    rw [Except.ok.injEq, Option.some.injEq, Prod.mk.injEq] at h
    obtain ⟨hL, hR⟩ := h
    refine ⟨i, rfl, h1, ?_, ?_, by rw [← hL, hR]⟩
    · rw [← hR]
    · rw [← hR]

theorem completeRound_ok_elim {rounds : List TalentRound}
    {bas : List BusinessAnalyst} {reviews : List Review} {id : String}
    {now : Int} {l' : List TalentRound} {r' : TalentRound}
    (h : completeRound rounds bas reviews id now = .ok (some (l', r'))) :
    ∃ i, rounds.findIdx? (fun r => r.id = id) = some i ∧
      (rounds.get! i).status = .active ∧
      (∃ s, getRoundSummary rounds bas reviews id = .ok s ∧
        ¬ s.completionPercentage < 100) ∧
      r' = { rounds.get! i with
               status := RoundStatus.completed,
               completedAt := some now } ∧
      l' = rounds.set i r' := by
  cases hidx : rounds.findIdx? (fun r => r.id = id) with
  | none => rw [completeRound, hidx] at h; exact absurd h (by simp)
  | some i =>
    simp only [completeRound, hidx] at h
    split_ifs at h with h1
    cases hs : getRoundSummary rounds bas reviews id with
    | error e => simp only [hs] at h; exact absurd h (by simp)
    | ok s =>
      simp only [hs] at h
      split_ifs at h with h2
      rw [Except.ok.injEq, Option.some.injEq, Prod.mk.injEq] at h
      obtain ⟨hL, hR⟩ := h
      exact ⟨i, rfl, not_ne_iff.mp h1, ⟨s, rfl, h2⟩, hR.symm, by rw [← hL, hR]⟩

theorem roundOp_status_mono (rounds : List TalentRound) (op : RoundOp)
    (id : String) {r : TalentRound}
    (hr : getRoundById rounds id = some r) :
    ∃ r', getRoundById (applyRoundOp rounds op) id = some r' ∧
      statusRank r.status ≤ statusRank r'.status ∧
      (r.status = .completed → r' = r) := by
  cases op with
  | create d freshId now today =>
    simp only [applyRoundOp]
    cases hc : createRound rounds d freshId now today with
    | error e => exact ⟨r, hr, le_refl _, fun _ => rfl⟩
    | ok p =>
      obtain ⟨l2, nr⟩ := p
      have hl2 := (createRound_ok_elim hc).2.2.2.2.2.2
      subst hl2
      refine ⟨r, ?_, le_refl _, fun _ => rfl⟩
      unfold getRoundById at hr ⊢
      rw [List.find?_append, hr]
      rfl
  | update uid d today =>
    simp only [applyRoundOp]
    cases hu : updateRound rounds uid d today with
    | error e => exact ⟨r, hr, le_refl _, fun _ => rfl⟩
    | ok o =>
      cases o with
      | none => exact ⟨r, hr, le_refl _, fun _ => rfl⟩
      | some p =>
        obtain ⟨l2, u⟩ := p
        obtain ⟨i, hidx, hst, hstat, hid, hl2⟩ := updRound_ok_elim hu
        subst hl2
        have hlt := findIdx?_some_lt hidx
        rw [get!_of_lt hlt] at hst hstat hid
        rcases find?_set_same_pred (p := fun x => decide (x.id = id)) hlt
            (by rw [decide_eq_decide, hid]) with heq | ⟨hset, hold⟩
        · exact ⟨r, heq.trans hr, le_refl _, fun _ => rfl⟩
        · have hre : r = rounds.get ⟨i, hlt⟩ := Option.some.inj (hr.symm.trans hold)
          refine ⟨u, hset, ?_, fun hcp => ?_⟩
          · rw [hstat, ← hre]
          · exact absurd (hre ▸ hcp) hst
  | activate aid =>
    simp only [applyRoundOp]
    cases ha : activateRound rounds aid with
    | error e => exact ⟨r, hr, le_refl _, fun _ => rfl⟩
    | ok o =>
      cases o with
      | none => exact ⟨r, hr, le_refl _, fun _ => rfl⟩
      | some p =>
        obtain ⟨l2, u⟩ := p
        obtain ⟨i, hidx, hdraft, hueq, hl2⟩ := activateRound_ok_elim ha
        subst hl2
        have hlt := findIdx?_some_lt hidx
        rw [get!_of_lt hlt] at hdraft hueq
        have hid : u.id = (rounds.get ⟨i, hlt⟩).id := by rw [hueq]
        rcases find?_set_same_pred (p := fun x => decide (x.id = id)) hlt
            (by rw [decide_eq_decide, hid]) with heq | ⟨hset, hold⟩
        · exact ⟨r, heq.trans hr, le_refl _, fun _ => rfl⟩
        · have hre : r = rounds.get ⟨i, hlt⟩ := Option.some.inj (hr.symm.trans hold)
          have hrst : r.status = .draft := by rw [hre]; exact hdraft
          have hust : u.status = .active := by rw [hueq]
          refine ⟨u, hset, ?_, fun hcp => ?_⟩
          · rw [hrst, hust]; decide
          · exact absurd (hrst.symm.trans hcp) (by decide)
  | complete cid bas reviews now =>
    simp only [applyRoundOp]
    cases hco : completeRound rounds bas reviews cid now with
    | error e => exact ⟨r, hr, le_refl _, fun _ => rfl⟩
    | ok o =>
      cases o with
      | none => exact ⟨r, hr, le_refl _, fun _ => rfl⟩
      | some p =>
        obtain ⟨l2, u⟩ := p
        obtain ⟨i, hidx, hact, -, hueq, hl2⟩ := completeRound_ok_elim hco
        subst hl2
        have hlt := findIdx?_some_lt hidx
        rw [get!_of_lt hlt] at hact hueq
        have hid : u.id = (rounds.get ⟨i, hlt⟩).id := by rw [hueq]
        rcases find?_set_same_pred (p := fun x => decide (x.id = id)) hlt
            (by rw [decide_eq_decide, hid]) with heq | ⟨hset, hold⟩
        · exact ⟨r, heq.trans hr, le_refl _, fun _ => rfl⟩
        · have hre : r = rounds.get ⟨i, hlt⟩ := Option.some.inj (hr.symm.trans hold)
          have hrst : r.status = .active := by rw [hre]; exact hact
          have hust : u.status = .completed := by rw [hueq]
          refine ⟨u, hset, ?_, fun hcp => ?_⟩
          · rw [hrst, hust]; decide
          · exact absurd (hrst.symm.trans hcp) (by decide)

theorem roundOps_status_mono (ops : List RoundOp) (rounds : List TalentRound)
    (id : String) {r : TalentRound}
    (hr : getRoundById rounds id = some r) :
    ∃ r', getRoundById (applyRoundOps rounds ops) id = some r' ∧
      statusRank r.status ≤ statusRank r'.status ∧
      (r.status = .completed → r' = r) := by
  induction ops generalizing rounds r with
  | nil => exact ⟨r, hr, le_refl _, fun _ => rfl⟩
  | cons op ops ih =>
    obtain ⟨r1, hr1, hle1, hcp1⟩ := roundOp_status_mono rounds op id hr
    obtain ⟨r2, hr2, hle2, hcp2⟩ := ih _ hr1
    refine ⟨r2, hr2, le_trans hle1 hle2, fun hc => ?_⟩
    have h1 : r1 = r := hcp1 hc
    have h2 : r2 = r1 := hcp2 (by rw [h1]; exact hc)
    rw [h2, h1]

/-- C2 (amended): `activate` returns `null` for an unknown id, throws
'Only draft rounds can be activated' for a stored round that is not Draft,
and marks a Draft round Active; `complete` returns `null` for an unknown
id, throws 'Only active rounds can be completed' for a round that is not
Active, and for an Active round throws 'Cannot complete round with
incomplete reviews' exactly when the summary's completionPercentage is
below 100 — at least 100 suffices, and because the percentage can exceed
100 a round with incomplete reviews can still be completed (see the
counterexample). Across any sequence of round-service calls a stored
round's status only advances in the Draft → Active → Completed order and a
Completed round never changes again. -/
theorem C2_round_lifecycle :
    (∀ (rounds : List TalentRound) (id : String),
      getRoundById rounds id = none → activateRound rounds id = .ok none) ∧
    (∀ (rounds : List TalentRound) (id : String) (r : TalentRound),
      getRoundById rounds id = some r → r.status ≠ .draft →
      activateRound rounds id = .error "Only draft rounds can be activated") ∧
    (∀ (rounds : List TalentRound) (id : String) (l' : List TalentRound)
       (r' : TalentRound),
      activateRound rounds id = .ok (some (l', r')) →
      ∃ r, getRoundById rounds id = some r ∧ r.status = .draft ∧
        r'.status = .active ∧ getRoundById l' id = some r') ∧
    (∀ (rounds : List TalentRound) (bas : List BusinessAnalyst)
       (reviews : List Review) (id : String) (now : Int),
      getRoundById rounds id = none →
      completeRound rounds bas reviews id now = .ok none) ∧
    (∀ (rounds : List TalentRound) (bas : List BusinessAnalyst)
       (reviews : List Review) (id : String) (now : Int) (r : TalentRound),
      getRoundById rounds id = some r → r.status ≠ .active →
      completeRound rounds bas reviews id now =
        .error "Only active rounds can be completed") ∧
    (∀ (rounds : List TalentRound) (bas : List BusinessAnalyst)
       (reviews : List Review) (id : String) (now : Int) (r : TalentRound)
       (s : RoundSummary),
      getRoundById rounds id = some r → r.status = .active →
      getRoundSummary rounds bas reviews id = .ok s →
      (s.completionPercentage < 100 →
        completeRound rounds bas reviews id now =
          .error "Cannot complete round with incomplete reviews") ∧
      (¬ s.completionPercentage < 100 →
        ∃ l' r', completeRound rounds bas reviews id now = .ok (some (l', r')) ∧
          r'.status = .completed ∧ getRoundById l' id = some r')) ∧
    (∀ (ops : List RoundOp) (rounds : List TalentRound) (id : String)
       (r : TalentRound),
      getRoundById rounds id = some r →
      ∃ r', getRoundById (applyRoundOps rounds ops) id = some r' ∧
        statusRank r.status ≤ statusRank r'.status ∧
        (r.status = .completed → r' = r)) := by
  refine ⟨?_, ?_, ?_, ?_, ?_, ?_, ?_⟩
  · intro rounds id hnone
    have hidx : rounds.findIdx? (fun r => r.id = id) = none :=
      findIdx?_none_of_find?_none hnone
    rw [activateRound, hidx]
  · intro rounds id r hr hne
    obtain ⟨i, hidx, hlt, hget⟩ := findIdx?_of_find? hr
    simp only [activateRound, hidx]
    rw [if_pos (by rw [get!_of_lt hlt, hget]; exact hne)]
  · intro rounds id l' r' h
    obtain ⟨i, hidx, hdraft, hr'eq, hl'⟩ := activateRound_ok_elim h
    have hlt := findIdx?_some_lt hidx
    obtain ⟨hlt2, hfind⟩ := find?_eq_of_findIdx? hidx
    rw [get!_of_lt hlt] at hdraft hr'eq
    obtain ⟨hlt3, hprop⟩ := findIdx?_get_prop hidx
    refine ⟨rounds.get ⟨i, hlt⟩, hfind, hdraft, by rw [hr'eq], ?_⟩
    rw [hl']
    exact find?_set_of_findIdx? hidx
      (by rw [decide_eq_true_eq, hr'eq]; simpa using hprop)
  · intro rounds bas reviews id now hnone
    have hidx : rounds.findIdx? (fun r => r.id = id) = none :=
      findIdx?_none_of_find?_none hnone
    rw [completeRound, hidx]
  · intro rounds bas reviews id now r hr hne
    obtain ⟨i, hidx, hlt, hget⟩ := findIdx?_of_find? hr
    simp only [completeRound, hidx]
    rw [if_pos (by rw [get!_of_lt hlt, hget]; exact hne)]
  · intro rounds bas reviews id now r s hr hact hs
    obtain ⟨i, hidx, hlt, hget⟩ := findIdx?_of_find? hr
    obtain ⟨hlt3, hprop⟩ := findIdx?_get_prop hidx
    constructor
    · intro hless
      simp only [completeRound, hidx, hs]
      rw [if_neg (by rw [get!_of_lt hlt, hget]; exact not_ne_iff.mpr hact),
        if_pos hless]
    · intro hge
      simp only [completeRound, hidx, hs]
      rw [if_neg (by rw [get!_of_lt hlt, hget]; exact not_ne_iff.mpr hact),
        if_neg hge]
      refine ⟨_, _, rfl, rfl, ?_⟩
      exact find?_set_of_findIdx? hidx (by rw [decide_eq_true_eq, get!_of_lt hlt]; simpa using hprop)
  · intro ops rounds id r hr
    exact roundOps_status_mono ops rounds id hr

/-- Witness for C2 at concrete inputs: activation of an unknown, an
already-active and a draft round; completion of an unknown and a draft
round; completion of an active round with a 100-percent summary; and
status monotonicity across a concrete call sequence. -/
theorem C2_round_lifecycle_witness :
    activateRound C2wRounds "zz" = .ok none ∧
    activateRound C2wRounds "r2" = .error "Only draft rounds can be activated" ∧
    (∃ r, getRoundById C2wRounds "r1" = some r ∧ r.status = .draft ∧
      ∃ l' r', activateRound C2wRounds "r1" = .ok (some (l', r')) ∧
        r'.status = .active) ∧
    completeRound C2wRounds C2wBAs C2wReviews "zz" 5 = .ok none ∧
    completeRound C2wRounds C2wBAs C2wReviews "r1" 5 =
      .error "Only active rounds can be completed" ∧
    (∃ l' r', completeRound C2wRounds C2wBAs C2wReviews "r2" 5 =
        .ok (some (l', r')) ∧ r'.status = .completed) ∧
    (∃ r', getRoundById
        (applyRoundOps C2wRounds [RoundOp.activate "r1"]) "r3" = some r' ∧
      statusRank RoundStatus.completed ≤ statusRank r'.status ∧
      r' = mkRound "r3" "Q3" 2025 .completed) := by
  have h := C2_round_lifecycle
  refine ⟨h.1 C2wRounds "zz" rfl,
    h.2.1 C2wRounds "r2" (mkRound "r2" "Q2" 2025 .active) rfl (by decide),
    ?_, h.2.2.2.1 C2wRounds C2wBAs C2wReviews "zz" 5 rfl,
    h.2.2.2.2.1 C2wRounds C2wBAs C2wReviews "r1" 5
      (mkRound "r1" "Q1" 2025 .draft) rfl (by decide), ?_, ?_⟩
  · have hok : (match activateRound C2wRounds "r1" with
        | .ok (some _) => true | _ => false) = true := rfl
    cases hc : activateRound C2wRounds "r1" with
    | error e => rw [hc] at hok; cases hok
    | ok o =>
      cases o with
      | none => rw [hc] at hok; cases hok
      | some p =>
        obtain ⟨r, hfind, hdraft, hst, -⟩ :=
          h.2.2.1 C2wRounds "r1" p.1 p.2 (by rw [← hc])
        exact ⟨r, hfind, hdraft, p.1, p.2, by rw [← hc], hst⟩
  · have hsum : (match getRoundSummary C2wRounds C2wBAs C2wReviews "r2" with
        | .ok _ => true | _ => false) = true := rfl
    cases hs : getRoundSummary C2wRounds C2wBAs C2wReviews "r2" with
    | error e => rw [hs] at hsum; cases hsum
    | ok s =>
      have hpc : s.completionPercentage = 100 := by
        have h0 : (match getRoundSummary C2wRounds C2wBAs C2wReviews "r2" with
            | .ok t => t.completionPercentage | .error _ => 0) = 100 := rfl
        rw [hs] at h0
        exact h0
      obtain ⟨l', r', hco, hst, -⟩ :=
        (h.2.2.2.2.2.1 C2wRounds C2wBAs C2wReviews "r2" 5
          (mkRound "r2" "Q2" 2025 .active) s rfl rfl hs).2
          (by rw [hpc]; decide)
      exact ⟨l', r', hco, hst⟩
  · obtain ⟨r', hfind, hle, hcp⟩ :=
      h.2.2.2.2.2.2 [RoundOp.activate "r1"] C2wRounds "r3"
        (mkRound "r3" "Q3" 2025 .completed) rfl
    exact ⟨r', hfind, hle, hcp rfl⟩

/-! ## Org-chart lemmas -/

theorem build_depth (A : List BusinessAnalyst) (f : Nat) (b : BusinessAnalyst)
    (d : Nat) : (buildOrgChartNode A f b d).depth = d := by
  cases f <;> rfl

theorem build_ba (A : List BusinessAnalyst) (f : Nat) (b : BusinessAnalyst)
    (d : Nat) : (buildOrgChartNode A f b d).ba = b := by
  cases f <;> rfl

theorem map_ba_build (A : List BusinessAnalyst) (f d : Nat)
    (L : List BusinessAnalyst) :
    ((L.map fun c => buildOrgChartNode A f c d).map (·.ba)) = L := by
  rw [List.map_map]
  have hco : ((fun n : OrgChartNode => n.ba) ∘ fun c => buildOrgChartNode A f c d)
      = fun c => c := by
    funext c
    exact build_ba A f c d
  rw [hco, List.map_id']

theorem forest_count_map (a : BusinessAnalyst) (g : BusinessAnalyst → OrgChartNode) :
    ∀ R : List BusinessAnalyst,
      (flattenForest (R.map g)).count a =
        (R.map fun c => (flattenTree (g c)).count a).sum := by
  intro R
  induction R with
  | nil => rfl
  | cons c t ih =>
    show (flattenTree (g c) ++ flattenForest (t.map g)).count a = _
    rw [List.count_append, ih]
    rfl

theorem mgrRef_some_elim {c : BusinessAnalyst} {m : String}
    (h : mgrRef c = some m) : c.lineManagerId = some m ∧ m ≠ "" := by
  unfold mgrRef at h
  cases hlm : c.lineManagerId with
  | none => rw [hlm] at h; exact Option.noConfusion h
  | some s =>
    rw [hlm] at h
    have h' : (if s = "" then none else some s) = some m := h
    by_cases hs : s = ""
    · rw [if_pos hs] at h'; exact Option.noConfusion h'
    · rw [if_neg hs] at h'
      obtain rfl : s = m := Option.some.inj h'
      exact ⟨rfl, hs⟩

theorem mgrRef_of_raw {c : BusinessAnalyst} {m : String}
    (hlm : c.lineManagerId = some m) (hm : m ≠ "") : mgrRef c = some m := by
  unfold mgrRef
  rw [hlm]
  show (if m = "" then none else some m) = some m
  rw [if_neg hm]

theorem jsTruthy_false_of_mgrRef_none {c : BusinessAnalyst}
    (h : mgrRef c = none) : jsTruthy c.lineManagerId = false := by
  cases hlm : c.lineManagerId with
  | none => rfl
  | some s =>
    unfold mgrRef at h
    rw [hlm] at h
    have h' : (if s = "" then none else some s) = none := h
    by_cases hs : s = ""
    · subst hs; decide
    · rw [if_neg hs] at h'; exact Option.noConfusion h'

theorem mgrRef_none_of_jsTruthy_false {c : BusinessAnalyst}
    (h : jsTruthy c.lineManagerId = false) : mgrRef c = none := by
  cases hlm : c.lineManagerId with
  | none => unfold mgrRef; rw [hlm]
  | some s =>
    rw [hlm] at h
    have hs : s = "" := by
      by_contra hs
      have hT : jsTruthy (some s) = true := by
        simp [jsTruthy, hs]
      rw [hT] at h; cases h
    unfold mgrRef
    rw [hlm]
    show (if s = "" then none else some s) = none
    rw [if_pos hs]

theorem parentIn_mem {A : List BusinessAnalyst} {c p : BusinessAnalyst}
    (h : parentIn A c = some p) : p ∈ A := by
  unfold parentIn at h
  cases hm : mgrRef c with
  | none => rw [hm] at h; exact Option.noConfusion h
  | some m => rw [hm] at h; exact List.mem_of_find?_eq_some h

theorem parentIn_some_iff {A : List BusinessAnalyst} {c b : BusinessAnalyst}
    (hnd : (baIds A).Nodup) (hbne : b.id ≠ "") (hb : b ∈ A) :
    parentIn A c = some b ↔ c.lineManagerId = some b.id := by
  constructor
  · intro h
    have hEx : ∃ m, mgrRef c = some m ∧ A.find? (fun q => q.id = m) = some b := by
      unfold parentIn at h
      cases hm : mgrRef c with
      | none => rw [hm] at h; exact Option.noConfusion h
      | some m => rw [hm] at h; exact ⟨m, rfl, h⟩
    obtain ⟨m, hm, hf⟩ := hEx
    have hbm : b.id = m := by simpa using List.find?_some hf
    obtain ⟨hlm, -⟩ := mgrRef_some_elim hm
    rw [hlm, hbm]
  · intro h
    have hm : mgrRef c = some b.id := mgrRef_of_raw h hbne
    unfold parentIn
    rw [hm]
    exact getById_mem_nodup hnd hb

theorem rank_parent {A : List BusinessAnalyst} {rk : String → Nat}
    (hrk : RankedBy A rk) {c p : BusinessAnalyst} (hc : c ∈ A)
    (hp : parentIn A c = some p) : rk c.id = rk p.id + 1 := by
  have hEx : ∃ m, mgrRef c = some m := by
    unfold parentIn at hp
    cases hm : mgrRef c with
    | none => rw [hm] at hp; exact Option.noConfusion hp
    | some m => exact ⟨m, rfl⟩
  obtain ⟨m, hm⟩ := hEx
  obtain ⟨p', hp', heq⟩ := (hrk c hc).2 m hm
  rw [hp] at hp'
  obtain rfl : p = p' := Option.some.inj hp'
  exact heq

theorem ancIn_add (A : List BusinessAnalyst) :
    ∀ (m n : Nat) (a : BusinessAnalyst),
      ancIn A (m + n) a = (ancIn A m a).bind (ancIn A n) := by
  intro m
  induction m with
  | zero =>
    intro n a
    rw [Nat.zero_add]
    rfl
  | succ m ih =>
    intro n a
    rw [Nat.succ_add]
    show (parentIn A a).bind (ancIn A (m + n)) =
      ((parentIn A a).bind (ancIn A m)).bind (ancIn A n)
    cases hp : parentIn A a with
    | none => rfl
    | some p =>
      rw [Option.some_bind, Option.some_bind]
      exact ih n p

theorem ancIn_snoc (A : List BusinessAnalyst) (k : Nat) (a : BusinessAnalyst) :
    ancIn A (k + 1) a = (ancIn A k a).bind (parentIn A) := by
  rw [ancIn_add A k 1 a]
  cases hk : ancIn A k a with
  | none => rfl
  | some c =>
    rw [Option.some_bind, Option.some_bind]
    show (parentIn A c).bind (ancIn A 0) = parentIn A c
    cases parentIn A c with
    | none => rfl
    | some p => rfl

theorem ancIn_rank (A : List BusinessAnalyst) (rk : String → Nat)
    (hrk : RankedBy A rk) :
    ∀ (k : Nat) (a c : BusinessAnalyst), a ∈ A → ancIn A k a = some c →
      c ∈ A ∧ rk a.id = rk c.id + k := by
  intro k
  induction k with
  | zero =>
    intro a c ha h
    obtain rfl : a = c := Option.some.inj h
    exact ⟨ha, rfl⟩
  | succ k ih =>
    intro a c ha h
    have h' : (parentIn A a).bind (ancIn A k) = some c := h
    cases hp : parentIn A a with
    | none => rw [hp] at h'; exact Option.noConfusion h'
    | some p =>
      rw [hp, Option.some_bind] at h'
      have hpA : p ∈ A := parentIn_mem hp
      obtain ⟨hcA, hrkp⟩ := ih p c hpA h'
      have hstep : rk a.id = rk p.id + 1 := rank_parent hrk ha hp
      exact ⟨hcA, by omega⟩

theorem ancIn_exists (A : List BusinessAnalyst) (rk : String → Nat)
    (hrk : RankedBy A rk) :
    ∀ (j : Nat) (a : BusinessAnalyst), a ∈ A → j ≤ rk a.id →
      ∃ c, ancIn A j a = some c ∧ c ∈ A ∧ rk c.id + j = rk a.id := by
  intro j
  induction j with
  | zero =>
    intro a ha _
    exact ⟨a, rfl, ha, rfl⟩
  | succ j ih =>
    intro a ha hj
    have hEx : ∃ m, mgrRef a = some m := by
      cases hm : mgrRef a with
      | none =>
        have h0 : rk a.id = 0 := (hrk a ha).1 hm
        omega
      | some m => exact ⟨m, rfl⟩
    obtain ⟨m, hm⟩ := hEx
    obtain ⟨p, hp, heq⟩ := (hrk a ha).2 m hm
    have hpA : p ∈ A := parentIn_mem hp
    have hjp : j ≤ rk p.id := by omega
    obtain ⟨c, hc, hcA, hrkc⟩ := ih p hpA hjp
    refine ⟨c, ?_, hcA, by omega⟩
    show (parentIn A a).bind (ancIn A j) = some c
    rw [hp, Option.some_bind]
    exact hc

theorem rank_lt_length (A : List BusinessAnalyst) (rk : String → Nat)
    (hnd : (baIds A).Nodup) (hrk : RankedBy A rk) :
    ∀ b ∈ A, rk b.id < A.length := by
  intro b hb
  have hanc : ∀ j ∈ List.range (rk b.id + 1),
      ∃ c, ancIn A j b = some c ∧ c ∈ A ∧ rk c.id + j = rk b.id := by
    intro j hj
    rw [List.mem_range] at hj
    exact ancIn_exists A rk hrk j b hb (by omega)
  have hsub : ((List.range (rk b.id + 1)).map
      (fun j => ((ancIn A j b).getD b).id)) ⊆ baIds A := by
    intro x hx
    rw [List.mem_map] at hx
    obtain ⟨j, hj, rfl⟩ := hx
    obtain ⟨c, hc, hcA, -⟩ := hanc j hj
    rw [hc]
    exact List.mem_map_of_mem (·.id) hcA
  have hnodup : ((List.range (rk b.id + 1)).map
      (fun j => ((ancIn A j b).getD b).id)).Nodup := by
    refine List.Nodup.map_on ?_ (List.nodup_range (rk b.id + 1))
    intro x hx y hy hxy
    rw [List.mem_range] at hx hy
    obtain ⟨cx, hcx, -, hrkx⟩ := hanc x (List.mem_range.mpr hx)
    obtain ⟨cy, hcy, -, hrky⟩ := hanc y (List.mem_range.mpr hy)
    rw [hcx, hcy] at hxy
    simp only [Option.getD_some] at hxy
    have hrkeq : rk cx.id = rk cy.id := by rw [hxy]
    omega
  have hlen := List.Subperm.length_le (List.subperm_of_subset hnodup hsub)
  rw [List.length_map, List.length_range] at hlen
  have hbalen : (baIds A).length = A.length := List.length_map A (·.id)
  omega

theorem sum_indicator {α : Type _} [DecidableEq α] :
    ∀ (R : List α) (f : α → Nat) (r : α), r ∈ R → R.Nodup →
      (∀ b ∈ R, f b = if b = r then 1 else 0) → (R.map f).sum = 1 := by
  intro R
  induction R with
  | nil =>
    intro f r hr
    exact absurd hr (List.not_mem_nil r)
  | cons c t ih =>
    intro f r hr hnd hf
    obtain ⟨hct, hndt⟩ := List.nodup_cons.mp hnd
    rw [List.map_cons, List.sum_cons]
    by_cases hrc : c = r
    · rw [hf c (List.mem_cons_self c t), if_pos hrc]
      have hzero : ∀ x ∈ t.map f, x = 0 := by
        intro x hx
        obtain ⟨b, hbt, rfl⟩ := List.mem_map.mp hx
        have hbr : b ≠ r := by
          intro hbr
          exact hct (by rw [hrc, ← hbr]; exact hbt)
        rw [hf b (List.mem_cons_of_mem c hbt), if_neg hbr]
      rw [List.sum_eq_zero hzero]
      rfl
    · have hrt : r ∈ t := by
        rcases List.mem_cons.mp hr with h | h
        · exact absurd h.symm hrc
        · exact h
      rw [hf c (List.mem_cons_self c t), if_neg hrc,
        ih f r hrt hndt (fun b hb => hf b (List.mem_cons_of_mem c hb))]

theorem build_count (A : List BusinessAnalyst) (rk : String → Nat)
    (hnd : (baIds A).Nodup) (hid : ∀ b ∈ A, b.id ≠ "")
    (hrk : RankedBy A rk) (a : BusinessAnalyst) (ha : a ∈ A) :
    ∀ (f : Nat) (b : BusinessAnalyst) (d : Nat), b ∈ A →
      A.length ≤ f + rk b.id →
      ((∃ k, ancIn A k a = some b) →
        (flattenTree (buildOrgChartNode A f b d)).count a = 1) ∧
      ((¬ ∃ k, ancIn A k a = some b) →
        (flattenTree (buildOrgChartNode A f b d)).count a = 0) := by
  intro f
  induction f with
  | zero =>
    intro b d hb hfuel
    have hlt := rank_lt_length A rk hnd hrk b hb
    omega
  | succ f ih =>
    intro b d hb hfuel
    have hchild : ∀ c, c ∈ A.filter (fun c => c.lineManagerId = some b.id) →
        c ∈ A ∧ parentIn A c = some b ∧ rk c.id = rk b.id + 1 := by
      intro c hc
      rw [List.mem_filter] at hc
      obtain ⟨hcA, hclm⟩ := hc
      have hclm' : c.lineManagerId = some b.id := by simpa using hclm
      have hpar : parentIn A c = some b :=
        (parentIn_some_iff hnd (hid b hb) hb).mpr hclm'
      exact ⟨hcA, hpar, rank_parent hrk hcA hpar⟩
    have hcount : (flattenTree (buildOrgChartNode A (f + 1) b d)).count a =
        ((A.filter fun c => c.lineManagerId = some b.id).map
          (fun c => (flattenTree (buildOrgChartNode A f c (d + 1))).count a)).sum +
        (if b = a then 1 else 0) := by
      show (b :: flattenForest ((A.filter fun c => c.lineManagerId = some b.id).map
        (fun c => buildOrgChartNode A f c (d + 1)))).count a = _
      rw [List.count_cons, forest_count_map]
      simp only [beq_iff_eq]
    constructor
    · rintro ⟨k, hk⟩
      rw [hcount]
      by_cases hab : a = b
      · subst hab
        have hzero : ∀ x ∈ (A.filter fun c => c.lineManagerId = some a.id).map
            (fun c => (flattenTree (buildOrgChartNode A f c (d + 1))).count a),
            x = 0 := by
          intro x hx
          obtain ⟨c, hcmem, rfl⟩ := List.mem_map.mp hx
          obtain ⟨hcA, hpar, hrkc⟩ := hchild c hcmem
          refine (ih c (d + 1) hcA (by omega)).2 ?_
          rintro ⟨j, hj⟩
          obtain ⟨-, hrkeq⟩ := ancIn_rank A rk hrk j a c ha hj
          omega
        rw [List.sum_eq_zero hzero, if_pos rfl]
      · have hk0 : k ≠ 0 := by
          intro h0
          subst h0
          exact hab (Option.some.inj hk)
        obtain ⟨k', rfl⟩ := Nat.exists_eq_succ_of_ne_zero hk0
        rw [ancIn_snoc] at hk
        cases hanc : ancIn A k' a with
        | none => rw [hanc] at hk; exact Option.noConfusion hk
        | some c =>
          rw [hanc, Option.some_bind] at hk
          obtain ⟨hcA, hrka⟩ := ancIn_rank A rk hrk k' a c ha hanc
          have hrkc : rk c.id = rk b.id + 1 := rank_parent hrk hcA hk
          have hcmem : c ∈ A.filter (fun c => c.lineManagerId = some b.id) := by
            rw [List.mem_filter]
            refine ⟨hcA, ?_⟩
            have := (parentIn_some_iff hnd (hid b hb) hb).mp hk
            simpa using this
          have hsum : ((A.filter fun c' => c'.lineManagerId = some b.id).map
              (fun c' => (flattenTree (buildOrgChartNode A f c' (d + 1))).count a)).sum
              = 1 := by
            refine sum_indicator _ _ c hcmem
              (((List.Nodup.of_map _ hnd).filter _)) ?_
            intro x hxmem
            obtain ⟨hxA, hxpar, hxrk⟩ := hchild x hxmem
            by_cases hxc : x = c
            · subst hxc
              rw [if_pos rfl]
              exact (ih x (d + 1) hxA (by omega)).1 ⟨k', hanc⟩
            · rw [if_neg hxc]
              refine (ih x (d + 1) hxA (by omega)).2 ?_
              rintro ⟨j, hj⟩
              obtain ⟨-, hrkj⟩ := ancIn_rank A rk hrk j a x ha hj
              have hjk : j = k' := by omega
              subst hjk
              exact hxc (Option.some.inj (hj.symm.trans hanc))
          rw [hsum, if_neg (fun h => hab h.symm)]
    · intro hno
      rw [hcount]
      have hba : ¬ b = a := by
        intro h
        exact hno ⟨0, by rw [h]; rfl⟩
      rw [if_neg hba]
      have hzero : ∀ x ∈ (A.filter fun c => c.lineManagerId = some b.id).map
          (fun c => (flattenTree (buildOrgChartNode A f c (d + 1))).count a),
          x = 0 := by
        intro x hx
        obtain ⟨c, hcmem, rfl⟩ := List.mem_map.mp hx
        obtain ⟨hcA, hpar, hrkc⟩ := hchild c hcmem
        refine (ih c (d + 1) hcA (by omega)).2 ?_
        rintro ⟨j, hj⟩
        refine hno ⟨j + 1, ?_⟩
        rw [ancIn_snoc, hj, Option.some_bind]
        exact hpar
      rw [List.sum_eq_zero hzero]

theorem inForest_shape_gen (A : List BusinessAnalyst) (rk : String → Nat)
    (hnd : (baIds A).Nodup) (hid : ∀ b ∈ A, b.id ≠ "")
    (hrk : RankedBy A rk) (ns : List OrgChartNode)
    (hroots : ∀ n ∈ ns, ∃ b, b ∈ A ∧ rk b.id = 0 ∧
      n = buildOrgChartNode A A.length b 0) :
    ∀ n, InForest n ns → ∃ b, b ∈ A ∧ rk b.id = n.depth ∧
      n = buildOrgChartNode A (A.length - n.depth) b n.depth := by
  intro n hn
  induction hn with
  | root hmem =>
    rename_i n' ns'
    obtain ⟨b, hbA, hb0, rfl⟩ := hroots n' hmem
    refine ⟨b, hbA, ?_, ?_⟩
    · rw [build_depth]
      exact hb0
    · rw [build_depth, Nat.sub_zero]
  | child hp hmem ih =>
    rename_i n' p' ns'
    obtain ⟨b, hbA, hbrk, hpeq⟩ := ih hroots
    have hdlt : p'.depth < A.length := by
      have := rank_lt_length A rk hnd hrk b hbA
      omega
    obtain ⟨f, hf⟩ : ∃ f, A.length - p'.depth = f + 1 :=
      ⟨A.length - p'.depth - 1, by omega⟩
    rw [hpeq, hf] at hmem
    have hch : (buildOrgChartNode A (f + 1) b p'.depth).children =
        (A.filter fun c => c.lineManagerId = some b.id).map
          (fun c => buildOrgChartNode A f c (p'.depth + 1)) := rfl
    rw [hch] at hmem
    obtain ⟨c, hcmem, rfl⟩ := List.mem_map.mp hmem
    rw [List.mem_filter] at hcmem
    obtain ⟨hcA, hclm⟩ := hcmem
    have hclm' : c.lineManagerId = some b.id := by simpa using hclm
    have hpar : parentIn A c = some b :=
      (parentIn_some_iff hnd (hid b hbA) hbA).mpr hclm'
    have hrkc : rk c.id = p'.depth + 1 := by
      rw [rank_parent hrk hcA hpar, hbrk]
    refine ⟨c, hcA, ?_, ?_⟩
    · rw [build_depth]
      exact hrkc
    · rw [build_depth]
      have hfl : A.length - (p'.depth + 1) = f := by omega
      rw [hfl]

/-- C3 (amended): when the stored ids are well formed and the manager
links of the active records are well founded (witnessed by a rank
function), `getOrgChart` returns a forest whose roots are exactly the
active analysts without a truthy `lineManagerId` (at depth 0), in which
every node's children are exactly the active analysts whose
`lineManagerId` is the node's id (at the parent's depth plus one), and in
which every active analyst appears exactly once. Without the
well-foundedness hypothesis an active analyst whose manager link leaves
the active set disappears from the chart (see the counterexample). -/
theorem C3_org_chart_structure (l : List BusinessAnalyst) (rk : String → Nat)
    (hg : GoodIds l) (hrk : RankedBy (l.filter (·.isActive)) rk) :
    ((getOrgChart l).map (·.ba) =
      (l.filter (·.isActive)).filter (fun ba => ¬ jsTruthy ba.lineManagerId)) ∧
    (∀ n ∈ getOrgChart l, n.depth = 0) ∧
    (∀ n, InForest n (getOrgChart l) →
      n.children.map (·.ba) =
        (l.filter (·.isActive)).filter
          (fun c => c.lineManagerId = some n.ba.id) ∧
      ∀ m ∈ n.children, m.depth = n.depth + 1) ∧
    (∀ a ∈ l.filter (·.isActive), (flattenForest (getOrgChart l)).count a = 1) := by
  have hnd : (baIds (l.filter (·.isActive))).Nodup := by
    have hsub : ((l.filter (·.isActive)).map fun ba => ba.id).Sublist
        (l.map fun ba => ba.id) :=
      List.Sublist.map (fun ba => ba.id) (List.filter_sublist l)
    exact List.Nodup.sublist hsub hg.1
  have hid : ∀ b ∈ l.filter (·.isActive), b.id ≠ "" :=
    fun b hb => hg.2 b (List.mem_filter.mp hb).1
  have hforest : getOrgChart l =
      ((l.filter (·.isActive)).filter (fun ba => ¬ jsTruthy ba.lineManagerId)).map
        (fun b => buildOrgChartNode (l.filter (·.isActive))
          (l.filter (·.isActive)).length b 0) := rfl
  have hroots : ∀ n ∈ getOrgChart l, ∃ b, b ∈ l.filter (·.isActive) ∧
      rk b.id = 0 ∧ n = buildOrgChartNode (l.filter (·.isActive))
        (l.filter (·.isActive)).length b 0 := by
    intro n hn
    rw [hforest] at hn
    obtain ⟨b, hbR, rfl⟩ := List.mem_map.mp hn
    rw [List.mem_filter] at hbR
    obtain ⟨hbA, hbp⟩ := hbR
    refine ⟨b, hbA, ?_, rfl⟩
    have hfalse : jsTruthy b.lineManagerId = false := by simpa using hbp
    exact (hrk b hbA).1 (mgrRef_none_of_jsTruthy_false hfalse)
  have hshape := inForest_shape_gen (l.filter (·.isActive)) rk hnd hid hrk
    (getOrgChart l) hroots
  refine ⟨?_, ?_, ?_, ?_⟩
  · rw [hforest]
    exact map_ba_build _ _ _ _
  · intro n hn
    obtain ⟨b, -, -, rfl⟩ := hroots n hn
    exact build_depth _ _ _ _
  · intro n hn
    obtain ⟨b, hbA, hbrk, heq⟩ := hshape n hn
    have hdlt : n.depth < (l.filter (·.isActive)).length := by
      have := rank_lt_length _ rk hnd hrk b hbA
      omega
    obtain ⟨f, hf⟩ : ∃ f, (l.filter (·.isActive)).length - n.depth = f + 1 :=
      ⟨(l.filter (·.isActive)).length - n.depth - 1, by omega⟩
    have hba : n.ba = b := by rw [heq, build_ba]
    have hch : n.children =
        ((l.filter (·.isActive)).filter fun c => c.lineManagerId = some b.id).map
          (fun c => buildOrgChartNode (l.filter (·.isActive)) f c (n.depth + 1)) := by
      rw [heq, hf]
      rfl
    constructor
    · rw [hba, hch]
      exact map_ba_build _ _ _ _
    · intro m hm
      rw [hch] at hm
      obtain ⟨c, -, rfl⟩ := List.mem_map.mp hm
      exact build_depth _ _ _ _
  · intro a ha
    obtain ⟨rt, hanc, hrtA, hrt0⟩ :=
      ancIn_exists (l.filter (·.isActive)) rk hrk (rk a.id) a ha (le_refl _)
    have hrtz : rk rt.id = 0 := by omega
    have hrtnone : mgrRef rt = none := by
      cases hm : mgrRef rt with
      | none => rfl
      | some m =>
        obtain ⟨p, hp, heq⟩ := (hrk rt hrtA).2 m hm
        omega
    have hrtR : rt ∈ (l.filter (·.isActive)).filter
        (fun ba => ¬ jsTruthy ba.lineManagerId) := by
      rw [List.mem_filter]
      refine ⟨hrtA, ?_⟩
      simp [jsTruthy_false_of_mgrRef_none hrtnone]
    rw [hforest, forest_count_map]
    refine sum_indicator _ _ rt hrtR
      ((List.Nodup.of_map _ hnd).filter _) ?_
    intro b hbR
    have hbA : b ∈ l.filter (·.isActive) := (List.mem_filter.mp hbR).1
    by_cases hbrt : b = rt
    · subst hbrt
      rw [if_pos rfl]
      exact (build_count _ rk hnd hid hrk a ha _ b 0 hbA
        (Nat.le_add_right _ _)).1 ⟨rk a.id, hanc⟩
    · rw [if_neg hbrt]
      refine (build_count _ rk hnd hid hrk a ha _ b 0 hbA
        (Nat.le_add_right _ _)).2 ?_
      rintro ⟨k, hk⟩
      have hbnone : mgrRef b = none := by
        refine mgrRef_none_of_jsTruthy_false ?_
        have := (List.mem_filter.mp hbR).2
        simpa using this
      have hbz : rk b.id = 0 := (hrk b hbA).1 hbnone
      obtain ⟨-, hrka⟩ :=
        ancIn_rank (l.filter (·.isActive)) rk hrk k a b ha hk
      have hkeq : k = rk a.id := by omega
      subst hkeq
      exact hbrt (Option.some.inj (hk.symm.trans hanc))

/-- Witness for C3 at a concrete two-analyst store with well-founded
manager links: the chart's roots are the active analysts without a manager
link, and the report `b` appears exactly once in the flattened chart. -/
theorem C3_org_chart_structure_witness :
    ((getOrgChart C3wStore).map (·.ba) =
      (C3wStore.filter (·.isActive)).filter
        (fun ba => ¬ jsTruthy ba.lineManagerId)) ∧
    (flattenForest (getOrgChart C3wStore)).count (mkBA "b" (some "a") true) = 1 := by
  have hrk : RankedBy (C3wStore.filter (·.isActive)) C3wRk := by
    intro a ha
    have ha' : a ∈ [mkBA "a" none true, mkBA "b" (some "a") true] := ha
    rcases List.mem_cons.mp ha' with rfl | ha''
    · refine ⟨fun _ => by decide, fun m hm => ?_⟩
      have h0 : mgrRef (mkBA "a" none true) = none := rfl
      rw [h0] at hm
      exact Option.noConfusion hm
    · rcases List.mem_cons.mp ha'' with rfl | hfalse
      · refine ⟨fun h0 => ?_, fun m hm => ?_⟩
        · have h1 : mgrRef (mkBA "b" (some "a") true) = some "a" := rfl
          rw [h1] at h0
          exact Option.noConfusion h0
        · have h1 : mgrRef (mkBA "b" (some "a") true) = some "a" := rfl
          rw [h1] at hm
          obtain rfl : "a" = m := Option.some.inj hm
          exact ⟨mkBA "a" none true, rfl, by decide⟩
      · exact absurd hfalse (List.not_mem_nil a)
  have h := C3_org_chart_structure C3wStore C3wRk (by constructor <;> decide) hrk
  exact ⟨h.1, h.2.2.2 (mkBA "b" (some "a") true) (by decide)⟩

end TalkingTalent
